import Mathlib

/-
Verification of the distributed fragment-loading pipeline of
modules/graph/loader/arrow_fragment_loader.h (vineyard).

The development shallowly embeds the loader: arrow data types and schemas
become inductive types and lists of fields, arrow tables become a schema
paired with per-column chunk lists, and each fallible C++ routine returning
boost::leaf::result becomes a Lean function into Except. Collective MPI
steps (sync_gs_error agreement rounds, the schema all-gather) are recorded
as an explicit event trace so that statements about which collectives run
before a failure can be proved.
-/

namespace Vineyard

/-- The arrow data types that the loader distinguishes. Every type the
loader does not inspect is collapsed into the `other` constructor, which
carries the printed type name so that distinct unhandled types stay
distinct. -/
inductive ArrowType where
  | timestampSec
  | int64
  | float64
  | utf8
  | other (name : String)
deriving DecidableEq, Repr

/-- An arrow field: a column name together with its data type, mirroring
arrow::Field as used by the loader. -/
structure Field where
  name : String
  type : ArrowType
deriving DecidableEq, Repr

instance : Inhabited Field := ⟨⟨"", ArrowType.other ""⟩⟩

/-- Mirrors arrow::Field::WithType: same name, replaced type. -/
def Field.withType (f : Field) (t : ArrowType) : Field :=
  { f with type := t }

/-- An arrow schema is its ordered list of fields. -/
abbrev Schema := List Field

/-- Mirrors arrow::Schema::field(i). Out-of-range access is undefined
behaviour in the source; the model returns a default field, and every
theorem that could touch the ragged case carries a well-formedness
hypothesis ruling it out. -/
def schemaField (s : Schema) (i : Nat) : Field :=
  s.getD i default

/-- The error codes raised by the code under verification
(RETURN_GS_ERROR / CHECK_OR_RAISE in arrow_fragment_loader.h). -/
inductive ErrorCode where
  | kIOError
  | kDataTypeError
  | kInvalidOperationError
  | kInvalidValueError
deriving DecidableEq, Repr

/-- A graphscope error value: code plus message, as produced by
RETURN_GS_ERROR. -/
structure GSError where
  code : ErrorCode
  message : String
deriving DecidableEq, Repr

/-- Result type standing for boost::leaf::result. -/
abbrev GSResult (α : Type) := Except GSError α

instance {ε α : Type} [DecidableEq ε] [DecidableEq α] : DecidableEq (Except ε α) :=
  fun a b =>
    match a, b with
    | Except.ok x, Except.ok y =>
      if h : x = y then Decidable.isTrue (by rw [h])
      else Decidable.isFalse (by intro hc; cases hc; exact h rfl)
    | Except.error x, Except.error y =>
      if h : x = y then Decidable.isTrue (by rw [h])
      else Decidable.isFalse (by intro hc; cases hc; exact h rfl)
    | Except.ok _, Except.error _ => Decidable.isFalse (by intro hc; cases hc)
    | Except.error _, Except.ok _ => Decidable.isFalse (by intro hc; cases hc)

/-- One column contribution list for TypeLoosen: given the gathered
per-worker schemas, the fields that the non-null schemas contribute for
column i, in gathered order (the source builds exactly this list). -/
def columnFields (schemas : List (Option Schema)) (i : Nat) : List Field :=
  (schemas.filterMap id).map (fun s => schemaField s i)

/-- The per-column widening of TypeLoosen: start from the first
contributed type, normalize timestamp-seconds to int64, widen int64 to
float64 when a later contribution is float64, then widen float64 to utf8
when a later contribution is utf8, and return the first contributed field
re-typed with the result (Field::WithType). This mirrors the loop body of
TypeLoosen at arrow_fragment_loader.h:914-935. -/
def loosenColumn (fs : List Field) : Field :=
  let f0 := fs.headD default
  let res1 := if f0.type = ArrowType.timestampSec then ArrowType.int64 else f0.type
  let res2 := if res1 = ArrowType.int64 ∧ fs.tail.any (fun f => f.type = ArrowType.float64)
              then ArrowType.float64 else res1
  let res3 := if res2 = ArrowType.float64 ∧ fs.tail.any (fun f => f.type = ArrowType.utf8)
              then ArrowType.utf8 else res2
  f0.withType res3

/-- TypeLoosen (arrow_fragment_loader.h:889-937): gathered per-worker
schemas (null for workers without a local table) are reconciled into one
schema. The field count is taken from the first non-null schema; if it is
zero (all schemas null, or the first non-null schema empty) the call fails
with kInvalidOperationError. Otherwise every column is widened with
`loosenColumn`. -/
def TypeLoosen (schemas : List (Option Schema)) : GSResult Schema :=
  let field_num := ((schemas.filterMap id).headD []).length
  if field_num = 0 then
    Except.error ⟨ErrorCode.kInvalidOperationError, "Every schema is empty"⟩
  else
    Except.ok ((List.range field_num).map (fun i => loosenColumn (columnFields schemas i)))

section SpecSide

/-- Rank of a type in the widening lattice the specification declares:
timestamp(seconds) below integer below floating below string. Types
outside the lattice get rank 0; the theorems about the lattice restrict
contributions to lattice types. -/
def latticeRank : ArrowType → Nat
  | ArrowType.timestampSec => 0
  | ArrowType.int64 => 1
  | ArrowType.float64 => 2
  | ArrowType.utf8 => 3
  | ArrowType.other _ => 0

/-- Whether a type is one of the four lattice types named by the
specification. -/
def inLattice : ArrowType → Prop
  | ArrowType.timestampSec => True
  | ArrowType.int64 => True
  | ArrowType.float64 => True
  | ArrowType.utf8 => True
  | ArrowType.other _ => False

instance (t : ArrowType) : Decidable (inLattice t) := by
  cases t <;> simp [inLattice] <;> infer_instance

/-- The reconciled column type the claim describes, spelled from the
specification text: start from the first contributed type and widen to any
contributing type strictly above it in the lattice; equivalently the
maximum-rank type among the start and all contributions. -/
def specLubType (t0 : ArrowType) (rest : List ArrowType) : ArrowType :=
  rest.foldl (fun acc t => if latticeRank acc < latticeRank t then t else acc) t0

/-- Normalization that TypeLoosen applies to the starting type of a
column: timestamp-seconds becomes int64 before any widening is
considered. -/
def normStart (t : ArrowType) : ArrowType :=
  if t = ArrowType.timestampSec then ArrowType.int64 else t

lemma specLubType_utf8 (rest : List ArrowType) :
    specLubType ArrowType.utf8 rest = ArrowType.utf8 := by
  induction rest with
  | nil => rfl
  | cons t ts ih =>
    have h : (if latticeRank ArrowType.utf8 < latticeRank t then t else ArrowType.utf8)
        = ArrowType.utf8 := by cases t <;> simp [latticeRank]
    simpa [specLubType, List.foldl_cons, h] using ih

lemma specLubType_float64 (rest : List ArrowType) :
    specLubType ArrowType.float64 rest =
      if rest.any (fun t => t = ArrowType.utf8) then ArrowType.utf8 else ArrowType.float64 := by
  induction rest with
  | nil => rfl
  | cons t ts ih =>
    by_cases hu : t = ArrowType.utf8
    · subst hu
      have : (if latticeRank ArrowType.float64 < latticeRank ArrowType.utf8
          then ArrowType.utf8 else ArrowType.float64) = ArrowType.utf8 := by
        simp [latticeRank]
      simp [specLubType, List.foldl_cons, this, specLubType_utf8 ts, List.any_cons]
      exact specLubType_utf8 ts
    · have h : (if latticeRank ArrowType.float64 < latticeRank t then t else ArrowType.float64)
          = ArrowType.float64 := by cases t <;> simp_all [latticeRank]
      simp only [specLubType, List.foldl_cons, h, List.any_cons] at *
      simpa [hu] using ih

lemma specLubType_int64 (rest : List ArrowType) :
    specLubType ArrowType.int64 rest =
      if rest.any (fun t => t = ArrowType.utf8) then ArrowType.utf8
      else if rest.any (fun t => t = ArrowType.float64) then ArrowType.float64
      else ArrowType.int64 := by
  induction rest with
  | nil => rfl
  | cons t ts ih =>
    by_cases hu : t = ArrowType.utf8
    · subst hu
      have h1 : (if latticeRank ArrowType.int64 < latticeRank ArrowType.utf8
          then ArrowType.utf8 else ArrowType.int64) = ArrowType.utf8 := by simp [latticeRank]
      simp only [specLubType, List.foldl_cons, h1, List.any_cons]
      simpa using specLubType_utf8 ts
    · by_cases hf : t = ArrowType.float64
      · subst hf
        have h1 : (if latticeRank ArrowType.int64 < latticeRank ArrowType.float64
            then ArrowType.float64 else ArrowType.int64) = ArrowType.float64 := by
          simp [latticeRank]
        simp only [specLubType, List.foldl_cons, h1, List.any_cons]
        simpa [hu] using specLubType_float64 ts
      · have h1 : (if latticeRank ArrowType.int64 < latticeRank t then t else ArrowType.int64)
            = ArrowType.int64 := by cases t <;> simp_all [latticeRank]
        simp only [specLubType, List.foldl_cons, h1, List.any_cons] at *
        simpa [hu, hf] using ih

end SpecSide

lemma loosenColumn_type_ne_timestamp (fs : List Field) :
    (loosenColumn fs).type ≠ ArrowType.timestampSec := by
  simp only [loosenColumn, Field.withType]
  split <;> split <;> simp_all <;> split <;> simp_all

/-- A field whose type is not timestamp-seconds is a fixpoint of the
per-column widening when it is the only contribution. -/
lemma loosenColumn_singleton (f : Field) (h : f.type ≠ ArrowType.timestampSec) :
    loosenColumn [f] = f := by
  simp [loosenColumn, Field.withType, h]

/-- The per-column widening computes the lattice least upper bound of the
normalized start and the remaining contributions, provided the start type
is a lattice type and string contributions are not reached from an integer
start without a floating contribution. -/
lemma loosenColumn_specLub (fs : List Field)
    (hhead : inLattice (fs.headD default).type)
    (hskip : (normStart (fs.headD default).type = ArrowType.int64 ∧
        fs.tail.any (fun f => f.type = ArrowType.utf8) = true) →
      fs.tail.any (fun f => f.type = ArrowType.float64) = true) :
    (loosenColumn fs).type =
      specLubType (normStart (fs.headD default).type) (fs.tail.map Field.type) := by
  cases fs with
  | nil => exact hhead.elim
  | cons f0 t =>
    simp only [List.headD_cons, List.tail_cons] at hhead hskip ⊢
    have hany : ∀ (l : List Field) (ty : ArrowType),
        (l.map Field.type).any (fun u => u = ty) = l.any (fun f => f.type = ty) := by
      intro l ty
      induction l with
      | nil => rfl
      | cons a b ih => simp [List.any_cons, ih]
    have hanyU := hany t ArrowType.utf8
    have hanyF := hany t ArrowType.float64
    rcases htype : f0.type with _ | _ | _ | _ | s
    · -- timestamp-seconds start: normalized to int64
      by_cases hU : t.any (fun f => f.type = ArrowType.utf8) = true
      · have hF := hskip ⟨by simp [normStart, htype], hU⟩
        simp [loosenColumn, Field.withType, htype, normStart, specLubType_int64, hanyU, hanyF,
          hU, hF]
      · by_cases hF : t.any (fun f => f.type = ArrowType.float64) = true
        · simp [loosenColumn, Field.withType, htype, normStart, specLubType_int64, hanyU, hanyF,
            hU, hF]
        · simp [loosenColumn, Field.withType, htype, normStart, specLubType_int64, hanyU, hanyF,
            hU, hF]
    · -- int64 start
      by_cases hU : t.any (fun f => f.type = ArrowType.utf8) = true
      · have hF := hskip ⟨by simp [normStart, htype], hU⟩
        simp [loosenColumn, Field.withType, htype, normStart, specLubType_int64, hanyU, hanyF,
          hU, hF]
      · by_cases hF : t.any (fun f => f.type = ArrowType.float64) = true
        · simp [loosenColumn, Field.withType, htype, normStart, specLubType_int64, hanyU, hanyF,
            hU, hF]
        · simp [loosenColumn, Field.withType, htype, normStart, specLubType_int64, hanyU, hanyF,
            hU, hF]
    · -- float64 start
      by_cases hU : t.any (fun f => f.type = ArrowType.utf8) = true
      · simp [loosenColumn, Field.withType, htype, normStart, specLubType_float64, hanyU, hU]
      · simp [loosenColumn, Field.withType, htype, normStart, specLubType_float64, hanyU, hU]
    · -- utf8 start
      simp [loosenColumn, Field.withType, htype, normStart, specLubType_utf8]
    · -- non-lattice start excluded
      rw [htype] at hhead
      exact hhead.elim

lemma getD_map_range (f : Nat → Field) (n i : Nat) (h : i < n) :
    ((List.range n).map f).getD i default = f i := by
  have hlen : i < ((List.range n).map f).length := by simpa using h
  simp only [List.getD, List.get?_eq_getElem?, List.getElem?_eq_getElem hlen, Option.getD_some,
    List.getElem_map, List.getElem_range]

lemma map_getD_range (l : List Field) :
    (List.range l.length).map (fun i => l.getD i default) = l := by
  refine List.ext_getElem (by simp) ?_
  intro i h1 h2
  simp only [List.getElem_map, List.getElem_range, List.getD, List.get?_eq_getElem?,
    List.getElem?_eq_getElem h2, Option.getD_some]

lemma TypeLoosen_fail_of_eq (schemas : List (Option Schema))
    (h : ((schemas.filterMap id).headD []).length = 0) :
    TypeLoosen schemas =
      Except.error ⟨ErrorCode.kInvalidOperationError, "Every schema is empty"⟩ := by
  simp only [TypeLoosen]
  rw [if_pos h]

lemma TypeLoosen_ok_of_ne (schemas : List (Option Schema))
    (h : ((schemas.filterMap id).headD []).length ≠ 0) :
    TypeLoosen schemas =
      Except.ok ((List.range ((schemas.filterMap id).headD []).length).map
        (fun i => loosenColumn (columnFields schemas i))) := by
  simp only [TypeLoosen]
  rw [if_neg h]

/-- C1 counterexample: gathering one schema typing column a as int64 and a
second typing it as utf8 reconciles to int64, whereas the least upper
bound under the declared lattice of the contributed types, starting from
the first contribution, is utf8. The claimed LUB computation therefore
does not describe TypeLoosen: string is never reached from an integer
start unless some contribution is floating. -/
theorem TypeLoosen_int64_utf8_counterexample :
    TypeLoosen [some [⟨"a", ArrowType.int64⟩], some [⟨"a", ArrowType.utf8⟩]] =
      Except.ok [⟨"a", ArrowType.int64⟩] ∧
    specLubType
        ((columnFields [some [⟨"a", ArrowType.int64⟩], some [⟨"a", ArrowType.utf8⟩]] 0).headD
          default).type
        ((columnFields [some [⟨"a", ArrowType.int64⟩], some [⟨"a", ArrowType.utf8⟩]] 0).tail.map
          Field.type) = ArrowType.utf8 ∧
    ArrowType.int64 ≠ ArrowType.utf8 :=
  ⟨rfl, rfl, fun h => ArrowType.noConfusion h⟩

/-- C1 (amended): for gathered schemas whose first non-null entry is
non-empty, TypeLoosen succeeds, and each reconciled column type equals the
least upper bound, under the lattice timestamp(seconds) below int64 below
float64 below utf8, of the normalized start type (timestamp-seconds is
first normalized to int64) and the remaining contributed types — provided
the start contribution is a lattice type and a utf8 contribution above an
int64 start is accompanied by a float64 contribution (without one the
source keeps int64, as the counterexample shows). -/
theorem TypeLoosen_stepwise_lub (schemas : List (Option Schema))
    (hpos : ((schemas.filterMap id).headD []).length ≠ 0) :
    ∃ L, TypeLoosen schemas = Except.ok L ∧
      L.length = ((schemas.filterMap id).headD []).length ∧
      ∀ i, i < L.length →
        inLattice ((columnFields schemas i).headD default).type →
        ((normStart ((columnFields schemas i).headD default).type = ArrowType.int64 ∧
            (columnFields schemas i).tail.any (fun f => f.type = ArrowType.utf8) = true) →
          (columnFields schemas i).tail.any (fun f => f.type = ArrowType.float64) = true) →
        (L.getD i default).type =
          specLubType (normStart ((columnFields schemas i).headD default).type)
            ((columnFields schemas i).tail.map Field.type) := by
  refine ⟨_, TypeLoosen_ok_of_ne schemas hpos, by simp, ?_⟩
  intro i hi hlat hskip
  have hi' : i < ((schemas.filterMap id).headD []).length := by simpa using hi
  rw [getD_map_range _ _ _ hi']
  exact loosenColumn_specLub _ hlat hskip

/-- C1 witness: the three example reconciliations the claim names, pushed
through the amended theorem at the input contributing int64, float64 and
utf8 for one column, whose reconciled type is utf8. -/
theorem TypeLoosen_stepwise_lub_witness :
    ∃ L, TypeLoosen [some [⟨"a", ArrowType.int64⟩], some [⟨"a", ArrowType.float64⟩],
        some [⟨"a", ArrowType.utf8⟩]] = Except.ok L ∧
      L.length = 1 ∧
      ∀ i, i < L.length →
        inLattice ((columnFields [some [⟨"a", ArrowType.int64⟩], some [⟨"a", ArrowType.float64⟩],
            some [⟨"a", ArrowType.utf8⟩]] i).headD default).type →
        ((normStart ((columnFields [some [⟨"a", ArrowType.int64⟩],
              some [⟨"a", ArrowType.float64⟩], some [⟨"a", ArrowType.utf8⟩]] i).headD
              default).type = ArrowType.int64 ∧
            (columnFields [some [⟨"a", ArrowType.int64⟩], some [⟨"a", ArrowType.float64⟩],
              some [⟨"a", ArrowType.utf8⟩]] i).tail.any
                (fun f => f.type = ArrowType.utf8) = true) →
          (columnFields [some [⟨"a", ArrowType.int64⟩], some [⟨"a", ArrowType.float64⟩],
            some [⟨"a", ArrowType.utf8⟩]] i).tail.any
              (fun f => f.type = ArrowType.float64) = true) →
        (L.getD i default).type =
          specLubType (normStart ((columnFields [some [⟨"a", ArrowType.int64⟩],
              some [⟨"a", ArrowType.float64⟩], some [⟨"a", ArrowType.utf8⟩]] i).headD
              default).type)
            ((columnFields [some [⟨"a", ArrowType.int64⟩], some [⟨"a", ArrowType.float64⟩],
              some [⟨"a", ArrowType.utf8⟩]] i).tail.map Field.type) :=
  TypeLoosen_stepwise_lub
    [some [⟨"a", ArrowType.int64⟩], some [⟨"a", ArrowType.float64⟩],
      some [⟨"a", ArrowType.utf8⟩]] (by decide)

/-- C9: schema reconciliation is idempotent: whenever TypeLoosen succeeds
on a gathered schema list, applying it to the singleton list holding the
reconciled schema returns that schema unchanged. -/
theorem TypeLoosen_idempotent (schemas : List (Option Schema)) (T : Schema)
    (h : TypeLoosen schemas = Except.ok T) :
    TypeLoosen [some T] = Except.ok T := by
  by_cases hn : ((schemas.filterMap id).headD []).length = 0
  · rw [TypeLoosen_fail_of_eq schemas hn] at h
    cases h
  · have hT : T = (List.range ((schemas.filterMap id).headD []).length).map
        (fun i => loosenColumn (columnFields schemas i)) := by
      have := TypeLoosen_ok_of_ne schemas hn
      rw [this] at h
      exact (Except.ok.inj h).symm
    have hlen : T.length = ((schemas.filterMap id).headD []).length := by simp [hT]
    have hTn : T.length ≠ 0 := by rw [hlen]; exact hn
    have hsingle : (([some T] : List (Option Schema)).filterMap id).headD [] = T := by simp
    have hstep := TypeLoosen_ok_of_ne [some T] (by rw [hsingle]; exact hTn)
    rw [hstep, hsingle]
    refine congrArg Except.ok ?_
    have hpt : ∀ i ∈ List.range T.length,
        loosenColumn (columnFields [some T] i) = T.getD i default := by
      intro i hi
      have hi' : i < T.length := List.mem_range.mp hi
      have hcf : columnFields [some T] i = [T.getD i default] := by
        simp [columnFields, schemaField]
      rw [hcf]
      apply loosenColumn_singleton
      have hv : T.getD i default = loosenColumn (columnFields schemas i) := by
        rw [hT]
        exact getD_map_range _ _ _ (by rw [← hlen]; exact hi')
      rw [hv]
      exact loosenColumn_type_ne_timestamp _
    rw [List.map_congr_left hpt]
    exact map_getD_range T

/-- C9 witness: reconciling the singleton timestamp schema gives the int64
schema, and reconciling that reconciled schema again is the identity. -/
theorem TypeLoosen_idempotent_witness :
    TypeLoosen [some [⟨"a", ArrowType.int64⟩]] = Except.ok [⟨"a", ArrowType.int64⟩] :=
  TypeLoosen_idempotent [some [⟨"a", ArrowType.timestampSec⟩], none]
    [⟨"a", ArrowType.int64⟩] rfl

/-! ## Tables and casting (CastIntToDouble, CastDateToInt, CastTableToSchema) -/

/-- A scalar cell of an arrow array. Doubles are modelled as exact
rational values: the specification notes that the int64 to float64 widen
is exact for magnitudes representable in the wider type, and the model
works with the mathematical value of the conversion. A timestamp-seconds
array stores its epoch values as int64 cells, matching the arrow buffer
layout that CastDateToInt reinterprets. -/
inductive CellValue where
  | vInt (i : Int)
  | vFloat (q : Rat)
  | vStr (s : String)
deriving DecidableEq, Repr

/-- One arrow array (a single chunk): its data type and its cells. -/
structure ArrowArray where
  type : ArrowType
  data : List CellValue
deriving DecidableEq, Repr

/-- Reinterpretation of a cell through GetValues of int64: on a well-typed
int64 buffer this reads the stored integer; anything else would be
undefined behaviour in the source, and is fenced off by well-typedness
hypotheses in the theorems. -/
def cellAsInt : CellValue → Int
  | CellValue.vInt i => i
  | CellValue.vFloat _ => 0
  | CellValue.vStr _ => 0

/-- An arrow table: schema plus per-column chunk lists. Well-formed tables
have one column per schema field and chunks typed as the field declares;
the theorems carry these facts as hypotheses. -/
structure ATable where
  schema : Schema
  columns : List (List ArrowArray)
deriving DecidableEq, Repr

/-- CastIntToDouble (arrow_fragment_loader.h:967-986): checks that the
input chunk is int64 and the target float64, then converts every element
with static_cast to double. -/
def CastIntToDouble (arr : ArrowArray) (to_type : ArrowType) : GSResult ArrowArray :=
  if arr.type ≠ ArrowType.int64 then
    Except.error ⟨ErrorCode.kInvalidValueError, "Check failed: in type is int64"⟩
  else if to_type ≠ ArrowType.float64 then
    Except.error ⟨ErrorCode.kInvalidValueError, "Check failed: to type is float64"⟩
  else
    Except.ok ⟨to_type, arr.data.map (fun c => CellValue.vFloat ((cellAsInt c : Int) : Rat))⟩

/-- CastDateToInt (arrow_fragment_loader.h:991-1002): checks that the
input chunk is timestamp-seconds and the target int64, then copies the
array data and retags its type; no value is transformed. -/
def CastDateToInt (arr : ArrowArray) (to_type : ArrowType) : GSResult ArrowArray :=
  if arr.type ≠ ArrowType.timestampSec then
    Except.error ⟨ErrorCode.kInvalidValueError, "Check failed: in type is timestamp"⟩
  else if to_type ≠ ArrowType.int64 then
    Except.error ⟨ErrorCode.kInvalidValueError, "Check failed: to type is int64"⟩
  else
    Except.ok ⟨to_type, arr.data⟩

/-- The per-chunk dispatch inside CastTableToSchema
(arrow_fragment_loader.h:1018-1036): int64 to float64 and
timestamp-seconds to int64 are casted; every other pair raises
kDataTypeError. -/
def castChunk (from_type to_type : ArrowType) (arr : ArrowArray) : GSResult ArrowArray :=
  if from_type = ArrowType.int64 ∧ to_type = ArrowType.float64 then
    CastIntToDouble arr to_type
  else if from_type = ArrowType.timestampSec ∧ to_type = ArrowType.int64 then
    CastDateToInt arr to_type
  else
    Except.error ⟨ErrorCode.kDataTypeError, "Unexpected type"⟩

/-- Casting of one table column: each chunk is casted in order, the first
failure aborting the column. -/
def castColumnChunks (from_type to_type : ArrowType) :
    List ArrowArray → GSResult (List ArrowArray)
  | [] => Except.ok []
  | arr :: rest => do
    let c ← castChunk from_type to_type arr
    let cs ← castColumnChunks from_type to_type rest
    Except.ok (c :: cs)

/-- The column loop of CastTableToSchema, running over the zipped
(origin field, target field, column) triples: columns whose types already
agree pass through unchanged, the rest are casted chunk by chunk. -/
def castCols : List ((Field × Field) × List ArrowArray) → GSResult (List (List ArrowArray))
  | [] => Except.ok []
  | ((f, g), col) :: rest =>
    match (if f.type = g.type then Except.ok col else castColumnChunks f.type g.type col) with
    | Except.error e => Except.error e
    | Except.ok c =>
      match castCols rest with
      | Except.error e => Except.error e
      | Except.ok cs => Except.ok (c :: cs)

/-- CastTableToSchema (arrow_fragment_loader.h:1004-1045): identity when
the schemas already agree; otherwise checks the column count against the
target field count and casts every mismatched column. -/
def CastTableToSchema (table : ATable) (schema : Schema) : GSResult ATable :=
  if table.schema = schema then
    Except.ok table
  else if table.columns.length ≠ schema.length then
    Except.error ⟨ErrorCode.kInvalidValueError, "Check failed: column count"⟩
  else
    match castCols ((table.schema.zip schema).zip table.columns) with
    | Except.error e => Except.error e
    | Except.ok cols => Except.ok ⟨schema, cols⟩

/-- Modelled from the spec: EmptyTableBuilder::Build, the object-store
helper the loader calls for a worker whose slice is absent, is not part of
the sampled sources; the specification requires it to synthesize an empty
table conforming to the reconciled schema, zero rows and correct column
types. The model gives every schema field a column with no chunks. -/
def EmptyTableBuild (schema : Schema) : ATable :=
  ⟨schema, schema.map (fun _ => [])⟩

/-- SyncSchema (arrow_fragment_loader.h:946-964), after the collective:
the gathered schema list (the result of GlobalAllGatherv over the worker
group, the null entries standing for absent local tables) is reconciled
with TypeLoosen; a worker without a local table synthesizes an empty table
of the reconciled schema, every other worker casts its table to it. -/
def SyncSchema (table : Option ATable) (gathered : List (Option Schema)) :
    GSResult ATable :=
  match TypeLoosen gathered with
  | Except.error e => Except.error e
  | Except.ok normalized =>
    match table with
    | none => Except.ok (EmptyTableBuild normalized)
    | some t => CastTableToSchema t normalized

/-- The two casts CastTableToSchema dispatches to, as the claim lists
them. -/
def supportedCast (a b : ArrowType) : Prop :=
  (a = ArrowType.int64 ∧ b = ArrowType.float64) ∨
    (a = ArrowType.timestampSec ∧ b = ArrowType.int64)

instance (a b : ArrowType) : Decidable (supportedCast a b) := by
  unfold supportedCast; infer_instance

/-- The column a successful CastTableToSchema produces for one
(origin field, target field, column) triple. -/
def castColExpected (f g : Field) (col : List ArrowArray) : List ArrowArray :=
  if f.type = g.type then col
  else if f.type = ArrowType.int64 ∧ g.type = ArrowType.float64 then
    col.map (fun a => ⟨ArrowType.float64, a.data.map
      (fun c => CellValue.vFloat ((cellAsInt c : Int) : Rat))⟩)
  else if f.type = ArrowType.timestampSec ∧ g.type = ArrowType.int64 then
    col.map (fun a => ⟨ArrowType.int64, a.data⟩)
  else []

lemma castColumnChunks_int_float (col : List ArrowArray)
    (hty : ∀ a ∈ col, a.type = ArrowType.int64) :
    castColumnChunks ArrowType.int64 ArrowType.float64 col =
      Except.ok (col.map (fun a => ⟨ArrowType.float64, a.data.map
        (fun c => CellValue.vFloat ((cellAsInt c : Int) : Rat))⟩)) := by
  induction col with
  | nil => rfl
  | cons a rest ih =>
    have ha : a.type = ArrowType.int64 := hty a (by simp)
    have hrest := ih (fun x hx => hty x (by simp [hx]))
    simp [castColumnChunks, castChunk, CastIntToDouble, ha, hrest, bind, Except.bind]

lemma castColumnChunks_ts_int (col : List ArrowArray)
    (hty : ∀ a ∈ col, a.type = ArrowType.timestampSec) :
    castColumnChunks ArrowType.timestampSec ArrowType.int64 col =
      Except.ok (col.map (fun a => ⟨ArrowType.int64, a.data⟩)) := by
  induction col with
  | nil => rfl
  | cons a rest ih =>
    have ha : a.type = ArrowType.timestampSec := hty a (by simp)
    have hrest := ih (fun x hx => hty x (by simp [hx]))
    simp [castColumnChunks, castChunk, CastDateToInt, ha, hrest, bind, Except.bind]

lemma castColumnChunks_unsupported (f g : ArrowType)
    (_hne : f ≠ g) (hnsup : ¬ supportedCast f g) (a : ArrowArray) (col : List ArrowArray) :
    castColumnChunks f g (a :: col) =
      Except.error ⟨ErrorCode.kDataTypeError, "Unexpected type"⟩ := by
  have h1 : ¬ (f = ArrowType.int64 ∧ g = ArrowType.float64) := fun h => hnsup (Or.inl h)
  have h2 : ¬ (f = ArrowType.timestampSec ∧ g = ArrowType.int64) := fun h => hnsup (Or.inr h)
  simp [castColumnChunks, castChunk, h1, h2, bind, Except.bind]

/-- The element step of `castCols` on a well-typed triple whose cast (if
any) is supported. -/
lemma castCols_head_ok (f g : Field) (col : List ArrowArray)
    (hty : ∀ a ∈ col, a.type = f.type)
    (hsup : f.type ≠ g.type → supportedCast f.type g.type) :
    (if f.type = g.type then Except.ok col else castColumnChunks f.type g.type col)
      = Except.ok (castColExpected f g col) := by
  by_cases heq : f.type = g.type
  · simp [castColExpected, heq]
  · rcases hsup heq with ⟨h1, h2⟩ | ⟨h1, h2⟩
    · rw [if_neg heq]
      rw [castColExpected, if_neg heq, if_pos ⟨h1, h2⟩]
      rw [h1, h2]
      exact castColumnChunks_int_float col (by rw [← h1]; exact hty)
    · have hne12 : ¬ (f.type = ArrowType.int64 ∧ g.type = ArrowType.float64) := by
        rw [h1, h2]; rintro ⟨hh, _⟩; cases hh
      rw [if_neg heq]
      rw [castColExpected, if_neg heq, if_neg hne12, if_pos ⟨h1, h2⟩]
      rw [h1, h2]
      exact castColumnChunks_ts_int col (by rw [← h1]; exact hty)

lemma castCols_ok (l : List ((Field × Field) × List ArrowArray))
    (hty : ∀ x ∈ l, ∀ a ∈ x.2, a.type = x.1.1.type)
    (hsup : ∀ x ∈ l, x.1.1.type ≠ x.1.2.type → supportedCast x.1.1.type x.1.2.type) :
    castCols l = Except.ok (l.map (fun x => castColExpected x.1.1 x.1.2 x.2)) := by
  induction l with
  | nil => rfl
  | cons x rest ih =>
    obtain ⟨⟨f, g⟩, col⟩ := x
    have hhead := castCols_head_ok f g col
      (hty ((f, g), col) (List.mem_cons_self _ _)) (hsup ((f, g), col) (List.mem_cons_self _ _))
    have hrest := ih (fun y hy => hty y (List.mem_cons_of_mem _ hy))
      (fun y hy => hsup y (List.mem_cons_of_mem _ hy))
    simp only [castCols, List.map_cons, hhead, hrest]

lemma castCols_error (l : List ((Field × Field) × List ArrowArray))
    (hty : ∀ x ∈ l, ∀ a ∈ x.2, a.type = x.1.1.type)
    (hbad : ∃ x ∈ l, x.1.1.type ≠ x.1.2.type ∧ ¬ supportedCast x.1.1.type x.1.2.type ∧
      x.2 ≠ []) :
    castCols l = Except.error ⟨ErrorCode.kDataTypeError, "Unexpected type"⟩ := by
  induction l with
  | nil => exact absurd hbad (by simp)
  | cons x rest ih =>
    obtain ⟨⟨f, g⟩, col⟩ := x
    by_cases hx : f.type ≠ g.type ∧ ¬ supportedCast f.type g.type ∧ col ≠ []
    · obtain ⟨h1, h2, h3⟩ := hx
      obtain ⟨a, col', rfl⟩ : ∃ a col', col = a :: col' := by
        cases col with
        | nil => exact absurd rfl h3
        | cons a c => exact ⟨a, c, rfl⟩
      have hchunks := castColumnChunks_unsupported f.type g.type h1 h2 a col'
      simp only [castCols, if_neg h1, hchunks]
    · -- the head is castable (or an empty unsupported column); the bad
      -- element is in the tail
      have hbad' : ∃ y ∈ rest, y.1.1.type ≠ y.1.2.type ∧
          ¬ supportedCast y.1.1.type y.1.2.type ∧ y.2 ≠ [] := by
        rcases hbad with ⟨y, hy, hprop⟩
        rcases List.mem_cons.mp hy with rfl | hmem
        · exact absurd hprop hx
        · exact ⟨y, hmem, hprop⟩
      have hrest := ih (fun y hy => hty y (List.mem_cons_of_mem _ hy)) hbad'
      by_cases heq : f.type = g.type
      · simp only [castCols, if_pos heq, hrest]
      · by_cases hsup : supportedCast f.type g.type
        · have hhead := castCols_head_ok f g col
            (hty ((f, g), col) (List.mem_cons_self _ _)) (fun _ => hsup)
          simp only [castCols, hhead, hrest]
        · have hcol : col = [] := by
            by_contra hc
            exact hx ⟨heq, hsup, hc⟩
          subst hcol
          simp only [castCols, if_neg heq, castColumnChunks, hrest]

lemma getD_eq_getElem' {α : Type} (l : List α) (d : α) (i : Nat) (h : i < l.length) :
    l.getD i d = l[i] := by
  simp [List.getD, List.get?_eq_getElem?, List.getElem?_eq_getElem h]

lemma zipzip_length (sch s : Schema) (cols : List (List ArrowArray))
    (h1 : sch.length = s.length) (h2 : cols.length = s.length) :
    ((sch.zip s).zip cols).length = s.length := by
  simp [List.length_zip, h1, h2]

lemma zipzip_getElem (sch s : Schema) (cols : List (List ArrowArray))
    (h1 : sch.length = s.length) (h2 : cols.length = s.length) (k : Nat) (hk : k < s.length) :
    ((sch.zip s).zip cols).getD k ((default, default), []) =
      ((sch.getD k default, s.getD k default), cols.getD k []) := by
  have hzl : k < ((sch.zip s).zip cols).length := by rw [zipzip_length sch s cols h1 h2]; exact hk
  have hz1 : k < (sch.zip s).length := by simp [List.length_zip, h1]; exact hk
  have hk1 : k < sch.length := by rw [h1]; exact hk
  have hk2 : k < cols.length := by rw [h2]; exact hk
  rw [getD_eq_getElem' _ _ _ hzl, List.getElem_zip, List.getElem_zip,
    getD_eq_getElem' sch _ _ hk1, getD_eq_getElem' s _ _ hk, getD_eq_getElem' cols _ _ hk2]

/-- C2 counterexample: a column of type utf8 with no chunks, cast to a
float64 target: the pair (utf8, float64) is not one of the two supported
casts, yet CastTableToSchema succeeds, because the chunk loop never runs
on a chunkless column; the claimed unconditional DataTypeError does not
hold for zero-chunk columns. -/
theorem CastTableToSchema_empty_column_counterexample :
    CastTableToSchema ⟨[⟨"a", ArrowType.utf8⟩], [[]]⟩ [⟨"a", ArrowType.float64⟩] =
      Except.ok ⟨[⟨"a", ArrowType.float64⟩], [[]]⟩ ∧
    ¬ supportedCast ArrowType.utf8 ArrowType.float64 ∧
    ArrowType.utf8 ≠ ArrowType.float64 :=
  ⟨rfl, by decide, by decide⟩

/-- C2 (amended): casting a table whose chunks are typed as its schema
declares, to a target schema of the same width: if some mismatched column
outside the two supported casts (int64 to float64 and timestamp-seconds to
int64) has at least one chunk, the cast fails with kDataTypeError; if
every mismatched column is one of the two supported casts, the cast
succeeds and produces the target schema, int64 columns converted
elementwise to doubles (exact rational values of the integers) and
timestamp columns retagged with their cell data unchanged, as
`castColExpected` spells out. A mismatched unsupported column with zero
chunks is retyped silently. -/
theorem CastTableToSchema_cast_policy (t : ATable) (s : Schema)
    (hlen : t.columns.length = s.length)
    (hslen : t.schema.length = s.length)
    (hty : ∀ i, i < s.length →
      ∀ a ∈ t.columns.getD i [], a.type = (t.schema.getD i default).type) :
    ((∃ i, i < s.length ∧ (t.schema.getD i default).type ≠ (s.getD i default).type ∧
        ¬ supportedCast (t.schema.getD i default).type (s.getD i default).type ∧
        t.columns.getD i [] ≠ []) →
      CastTableToSchema t s = Except.error ⟨ErrorCode.kDataTypeError, "Unexpected type"⟩)
    ∧ ((∀ i, i < s.length → (t.schema.getD i default).type ≠ (s.getD i default).type →
        supportedCast (t.schema.getD i default).type (s.getD i default).type) →
      ∃ t', CastTableToSchema t s = Except.ok t' ∧ t'.schema = s ∧
        t'.columns.length = s.length ∧
        ∀ i, i < s.length → t'.columns.getD i [] =
          castColExpected (t.schema.getD i default) (s.getD i default)
            (t.columns.getD i [])) := by
  have hzlen : ((t.schema.zip s).zip t.columns).length = s.length :=
    zipzip_length t.schema s t.columns hslen hlen
  have hmem_shape : ∀ x ∈ (t.schema.zip s).zip t.columns, ∃ k, k < s.length ∧
      x = ((t.schema.getD k default, s.getD k default), t.columns.getD k []) := by
    intro x hx
    obtain ⟨k, hk, hxeq⟩ := List.mem_iff_getElem.mp hx
    have hks : k < s.length := by rw [← hzlen]; exact hk
    refine ⟨k, hks, ?_⟩
    rw [← hxeq, ← getD_eq_getElem' _ (((default : Field), (default : Field)), ([] : List ArrowArray)) k hk,
      zipzip_getElem t.schema s t.columns hslen hlen k hks]
  have htyZ : ∀ x ∈ (t.schema.zip s).zip t.columns, ∀ a ∈ x.2, a.type = x.1.1.type := by
    intro x hx a ha
    obtain ⟨k, hks, rfl⟩ := hmem_shape x hx
    exact hty k hks a ha
  have hcolcheck : ¬ (t.columns.length ≠ s.length) := by simp [hlen]
  constructor
  · rintro ⟨i, hi, hmis, hnsup, hnonempty⟩
    have hschema_ne : t.schema ≠ s := by
      intro h
      exact hmis (by rw [h])
    have hbadZ : ∃ x ∈ (t.schema.zip s).zip t.columns, x.1.1.type ≠ x.1.2.type ∧
        ¬ supportedCast x.1.1.type x.1.2.type ∧ x.2 ≠ [] := by
      have hiz : i < ((t.schema.zip s).zip t.columns).length := by rw [hzlen]; exact hi
      refine ⟨((t.schema.zip s).zip t.columns).getD i ((default, default), []), ?_, ?_⟩
      · rw [getD_eq_getElem' _ _ _ hiz]
        exact List.getElem_mem hiz
      · rw [zipzip_getElem t.schema s t.columns hslen hlen i hi]
        exact ⟨hmis, hnsup, hnonempty⟩
    have hcast := castCols_error ((t.schema.zip s).zip t.columns) htyZ hbadZ
    simp only [CastTableToSchema, if_neg hschema_ne, if_neg hcolcheck, hcast]
  · intro hsupAll
    by_cases hschema : t.schema = s
    · refine ⟨t, by simp [CastTableToSchema, hschema], hschema, hlen, ?_⟩
      intro i hi
      have heqf : t.schema.getD i default = s.getD i default := by rw [hschema]
      rw [castColExpected, if_pos (by rw [heqf])]
    · have hsupZ : ∀ x ∈ (t.schema.zip s).zip t.columns,
          x.1.1.type ≠ x.1.2.type → supportedCast x.1.1.type x.1.2.type := by
        intro x hx hne
        obtain ⟨k, hks, rfl⟩ := hmem_shape x hx
        exact hsupAll k hks hne
      have hcast := castCols_ok ((t.schema.zip s).zip t.columns) htyZ hsupZ
      refine ⟨⟨s, ((t.schema.zip s).zip t.columns).map
          (fun x => castColExpected x.1.1 x.1.2 x.2)⟩, ?_, rfl, ?_, ?_⟩
      · simp only [CastTableToSchema, if_neg hschema, if_neg hcolcheck, hcast]
      · simp [hzlen]
      · intro i hi
        have hiz : i < ((t.schema.zip s).zip t.columns).length := by rw [hzlen]; exact hi
        have hmaplen : i < (((t.schema.zip s).zip t.columns).map
            (fun x => castColExpected x.1.1 x.1.2 x.2)).length := by
          simp [hzlen]; exact hi
        show (((t.schema.zip s).zip t.columns).map
            (fun x => castColExpected x.1.1 x.1.2 x.2)).getD i [] = _
        rw [getD_eq_getElem' _ _ _ hmaplen, List.getElem_map,
          ← getD_eq_getElem' _ (((default : Field), (default : Field)), ([] : List ArrowArray)) i hiz,
          zipzip_getElem t.schema s t.columns hslen hlen i hi]

/-- C2 witness: a three-column table needing an int64 to float64 cast, a
timestamp-seconds to int64 cast and no cast, pushed through the success
branch of the policy theorem. -/
theorem CastTableToSchema_cast_policy_witness :
    ∃ t', CastTableToSchema
        ⟨[⟨"a", ArrowType.int64⟩, ⟨"b", ArrowType.timestampSec⟩, ⟨"c", ArrowType.utf8⟩],
         [[⟨ArrowType.int64, [CellValue.vInt 3, CellValue.vInt (-5)]⟩],
          [⟨ArrowType.timestampSec, [CellValue.vInt 7]⟩],
          [⟨ArrowType.utf8, [CellValue.vStr "x"]⟩]]⟩
        [⟨"a", ArrowType.float64⟩, ⟨"b", ArrowType.int64⟩, ⟨"c", ArrowType.utf8⟩] =
        Except.ok t' ∧
      t'.schema = [⟨"a", ArrowType.float64⟩, ⟨"b", ArrowType.int64⟩, ⟨"c", ArrowType.utf8⟩] ∧
      t'.columns.length = 3 ∧
      ∀ i, i < 3 → t'.columns.getD i [] =
        castColExpected
          (([⟨"a", ArrowType.int64⟩, ⟨"b", ArrowType.timestampSec⟩,
             ⟨"c", ArrowType.utf8⟩] : Schema).getD i default)
          (([⟨"a", ArrowType.float64⟩, ⟨"b", ArrowType.int64⟩,
             ⟨"c", ArrowType.utf8⟩] : Schema).getD i default)
          (([[⟨ArrowType.int64, [CellValue.vInt 3, CellValue.vInt (-5)]⟩],
             [⟨ArrowType.timestampSec, [CellValue.vInt 7]⟩],
             [⟨ArrowType.utf8, [CellValue.vStr "x"]⟩]] :
              List (List ArrowArray)).getD i []) :=
  (CastTableToSchema_cast_policy
    ⟨[⟨"a", ArrowType.int64⟩, ⟨"b", ArrowType.timestampSec⟩, ⟨"c", ArrowType.utf8⟩],
     [[⟨ArrowType.int64, [CellValue.vInt 3, CellValue.vInt (-5)]⟩],
      [⟨ArrowType.timestampSec, [CellValue.vInt 7]⟩],
      [⟨ArrowType.utf8, [CellValue.vStr "x"]⟩]]⟩
    [⟨"a", ArrowType.float64⟩, ⟨"b", ArrowType.int64⟩, ⟨"c", ArrowType.utf8⟩]
    rfl rfl (by decide)).2 (by decide)

/-! ## SyncSchema: absent tables and the all-null precondition -/

/-- C3 counterexample: a gathered list holding one non-null schema that
has no fields: TypeLoosen sees field count zero and SyncSchema fails with
kInvalidOperationError instead of synthesizing a zero-row table, although
a non-null schema was contributed. -/
theorem SyncSchema_empty_schema_counterexample :
    SyncSchema none [some ([] : Schema)] =
      Except.error ⟨ErrorCode.kInvalidOperationError, "Every schema is empty"⟩ ∧
    (some ([] : Schema)) ≠ (none : Option Schema) :=
  ⟨rfl, by simp⟩

/-- C3 (amended): whenever the first non-null gathered schema has at least
one field, reconciliation succeeds and a worker whose local table is
absent obtains the synthesized empty table: its schema is exactly the
reconciled schema and every column holds no chunks (zero rows). -/
theorem SyncSchema_absent_table (gathered : List (Option Schema))
    (h : ((gathered.filterMap id).headD []).length ≠ 0) :
    ∃ ns, TypeLoosen gathered = Except.ok ns ∧
      SyncSchema none gathered = Except.ok (EmptyTableBuild ns) ∧
      (EmptyTableBuild ns).schema = ns ∧
      ∀ c ∈ (EmptyTableBuild ns).columns, c = [] := by
  refine ⟨_, TypeLoosen_ok_of_ne gathered h, ?_, rfl, ?_⟩
  · simp only [SyncSchema, TypeLoosen_ok_of_ne gathered h]
  · intro c hc
    simp only [EmptyTableBuild, List.mem_map] at hc
    obtain ⟨_, _, hceq⟩ := hc
    exact hceq.symm

/-- C3 witness: scenario C of the specification: one worker contributes
nothing (null schema), another contributes a float64 column; the absent
worker receives a zero-row table whose single column is float64. -/
theorem SyncSchema_absent_table_witness :
    (∃ ns, TypeLoosen [none, some [⟨"x", ArrowType.float64⟩]] = Except.ok ns ∧
      SyncSchema none [none, some [⟨"x", ArrowType.float64⟩]] =
        Except.ok (EmptyTableBuild ns) ∧
      (EmptyTableBuild ns).schema = ns ∧
      ∀ c ∈ (EmptyTableBuild ns).columns, c = []) ∧
    TypeLoosen [none, some [⟨"x", ArrowType.float64⟩]] =
      Except.ok [⟨"x", ArrowType.float64⟩] :=
  ⟨SyncSchema_absent_table [none, some [⟨"x", ArrowType.float64⟩]] (by decide), rfl⟩

/-- C10: when every gathered schema is null (no worker contributed a
non-empty table), TypeLoosen fails with the invalid-operation error
"Every schema is empty", and SyncSchema therefore fails identically for
any local table; reconciliation indeed requires at least one non-empty
contribution. -/
theorem TypeLoosen_all_null (gathered : List (Option Schema)) (t : Option ATable)
    (h : ∀ s ∈ gathered, s = none) :
    TypeLoosen gathered =
      Except.error ⟨ErrorCode.kInvalidOperationError, "Every schema is empty"⟩ ∧
    SyncSchema t gathered =
      Except.error ⟨ErrorCode.kInvalidOperationError, "Every schema is empty"⟩ := by
  have hnil : gathered.filterMap id = [] := by
    rw [List.filterMap_eq_nil_iff]
    intro a ha
    simp [h a ha]
  have h0 : ((gathered.filterMap id).headD []).length = 0 := by rw [hnil]; rfl
  have hTL := TypeLoosen_fail_of_eq gathered h0
  exact ⟨hTL, by simp only [SyncSchema, hTL]⟩

/-- C10 witness: two workers, both without a local table. -/
theorem TypeLoosen_all_null_witness :
    TypeLoosen [none, none] =
      Except.error ⟨ErrorCode.kInvalidOperationError, "Every schema is empty"⟩ ∧
    SyncSchema none [none, none] =
      Except.error ⟨ErrorCode.kInvalidOperationError, "Every schema is empty"⟩ :=
  TypeLoosen_all_null [none, none] none (by decide)

/-! ## shuffleAndBuild: the label-to-index consistency block -/

/-- Outcome of the label-list loop: either a graphscope error raised with
RETURN_GS_ERROR, or an out-of-range std::vector access, which is undefined
behaviour in the source and is surfaced as a distinguished marker by the
model. -/
inductive BuildLabelErr where
  | gs (e : GSError)
  | oob
deriving DecidableEq, Repr

/-- The loop of shuffleAndBuild (arrow_fragment_loader.h:302-317 for
vertex labels and 336-351 for edge labels) walking the label-to-index map:
an index strictly greater than the label count raises kIOError, a repeated
index raises kIOError, and an index equal to the label count escapes the
range check and reads past the bitset. -/
def buildLabelListAux (num : Nat) :
    List (String × Nat) → List Bool → List String → Except BuildLabelErr (List String)
  | [], _, labels => Except.ok labels
  | (name, idx) :: rest, bitset, labels =>
    if num < idx then
      Except.error (BuildLabelErr.gs ⟨ErrorCode.kIOError, "Failed to map vertex label to index"⟩)
    else if h : idx < bitset.length then
      if bitset.get ⟨idx, h⟩ then
        Except.error (BuildLabelErr.gs
          ⟨ErrorCode.kIOError, "Multiple vertex labels are mapped to one index."⟩)
      else buildLabelListAux num rest (bitset.set idx true) (labels.set idx name)
    else Except.error BuildLabelErr.oob

/-- The label-list construction of shuffleAndBuild: list and bitset are
sized by the label count, then the label-to-index map is walked. -/
def buildLabelList (pairs : List (String × Nat)) (num : Nat) :
    Except BuildLabelErr (List String) :=
  buildLabelListAux num pairs (List.replicate num false) (List.replicate num "")

lemma getD_set_self (bitset : List Bool) (idx : Nat) (b : Bool) (h : idx < bitset.length) :
    (bitset.set idx b).getD idx false = b := by
  rw [getD_eq_getElem' _ _ _ (by simpa using h)]
  exact List.getElem_set_self (by simpa using h)

lemma getD_set_other (bitset : List Bool) (idx j : Nat) (b : Bool) (hne : idx ≠ j) :
    (bitset.set idx b).getD j false = bitset.getD j false := by
  by_cases hj : j < bitset.length
  · rw [getD_eq_getElem' _ _ _ (by simpa using hj), getD_eq_getElem' _ _ _ hj]
    exact List.getElem_set_ne hne (by simpa using hj)
  · rw [List.getD_eq_default _ _ (by simpa using Nat.le_of_not_lt hj),
      List.getD_eq_default _ _ (Nat.le_of_not_lt hj)]

lemma buildLabelListAux_dup (num : Nat) (pairs : List (String × Nat))
    (bitset : List Bool) (labels : List String)
    (hblen : bitset.length = num)
    (hall : ∀ p ∈ pairs, p.2 < num)
    (hdup : ¬ (pairs.map Prod.snd).Nodup ∨ ∃ p ∈ pairs, bitset.getD p.2 false = true) :
    buildLabelListAux num pairs bitset labels =
      Except.error (BuildLabelErr.gs
        ⟨ErrorCode.kIOError, "Multiple vertex labels are mapped to one index."⟩) := by
  induction pairs generalizing bitset labels with
  | nil =>
    rcases hdup with h | ⟨p, hp, _⟩
    · simp at h
    · simp at hp
  | cons hd rest ih =>
    obtain ⟨name, idx⟩ := hd
    have hidx : idx < num := hall _ (List.mem_cons_self _ _)
    have hnotgt : ¬ num < idx := by omega
    have hlt : idx < bitset.length := by rw [hblen]; exact hidx
    by_cases hset : bitset.get ⟨idx, hlt⟩ = true
    · simp only [buildLabelListAux, if_neg hnotgt, dif_pos hlt, if_pos hset]
    · have hset' : bitset.get ⟨idx, hlt⟩ = false := by
        cases hb : bitset.get ⟨idx, hlt⟩
        · rfl
        · exact absurd hb hset
      have hsetD : bitset.getD idx false = false := by
        rw [getD_eq_getElem' _ _ _ hlt]
        exact hset'
      simp only [buildLabelListAux, if_neg hnotgt, dif_pos hlt, hset', Bool.false_eq_true,
        if_false]
      refine ih (bitset.set idx true) (labels.set idx name)
        (by rw [List.length_set]; exact hblen)
        (fun p hp => hall p (List.mem_cons_of_mem _ hp)) ?_
      rcases hdup with hnodup | ⟨p, hp, hpbit⟩
      · rw [List.map_cons, List.nodup_cons] at hnodup
        push_neg at hnodup
        by_cases hmem : idx ∈ rest.map Prod.snd
        · obtain ⟨p, hp, hpeq⟩ := List.mem_map.mp hmem
          refine Or.inr ⟨p, hp, ?_⟩
          rw [hpeq]
          exact getD_set_self bitset idx true hlt
        · exact Or.inl (fun hn => (hnodup hmem) hn)
      · rcases List.mem_cons.mp hp with heq | hmem
        · rw [heq] at hpbit
          simp only at hpbit
          rw [hsetD] at hpbit
          cases hpbit
        · by_cases hpe : idx = p.2
          · exact Or.inr ⟨p, hmem, by rw [← hpe]; exact getD_set_self bitset idx true hlt⟩
          · exact Or.inr ⟨p, hmem, by rw [getD_set_other bitset idx p.2 true hpe]; exact hpbit⟩

lemma buildLabelListAux_overflow (num : Nat) (pairs : List (String × Nat))
    (bitset : List Bool) (labels : List String)
    (h : ∃ p ∈ pairs, num < p.2) :
    ∃ e, buildLabelListAux num pairs bitset labels = Except.error e := by
  induction pairs generalizing bitset labels with
  | nil => simp at h
  | cons hd rest ih =>
    obtain ⟨name, idx⟩ := hd
    by_cases hgt : num < idx
    · exact ⟨BuildLabelErr.gs ⟨ErrorCode.kIOError, "Failed to map vertex label to index"⟩,
        by simp only [buildLabelListAux, if_pos hgt]⟩
    · have h' : ∃ p ∈ rest, num < p.2 := by
        rcases h with ⟨p, hp, hnum⟩
        rcases List.mem_cons.mp hp with heq | hmem
        · rw [heq] at hnum; exact absurd hnum hgt
        · exact ⟨p, hmem, hnum⟩
      by_cases hlt : idx < bitset.length
      · by_cases hset : bitset.get ⟨idx, hlt⟩ = true
        · exact ⟨BuildLabelErr.gs
              ⟨ErrorCode.kIOError, "Multiple vertex labels are mapped to one index."⟩,
            by simp only [buildLabelListAux, if_neg hgt, dif_pos hlt, if_pos hset]⟩
        · have hset' : bitset.get ⟨idx, hlt⟩ = false := by
            cases hb : bitset.get ⟨idx, hlt⟩
            · rfl
            · exact absurd hb hset
          obtain ⟨e, he⟩ := ih (bitset.set idx true) (labels.set idx name) h'
          refine ⟨e, ?_⟩
          simp only [buildLabelListAux, if_neg hgt, dif_pos hlt, hset', Bool.false_eq_true,
            if_false]
          exact he
      · exact ⟨BuildLabelErr.oob, by simp only [buildLabelListAux, if_neg hgt, dif_neg hlt]⟩

lemma buildLabelListAux_oob (num : Nat) (pairs : List (String × Nat))
    (bitset : List Bool) (labels : List String)
    (hblen : bitset.length = num)
    (hall : ∀ p ∈ pairs, p.2 ≤ num)
    (hnodup : (pairs.map Prod.snd).Nodup)
    (hfresh : ∀ p ∈ pairs, p.2 < num → bitset.getD p.2 false = false)
    (hex : ∃ p ∈ pairs, p.2 = num) :
    buildLabelListAux num pairs bitset labels = Except.error BuildLabelErr.oob := by
  induction pairs generalizing bitset labels with
  | nil => simp at hex
  | cons hd rest ih =>
    obtain ⟨name, idx⟩ := hd
    have hle : idx ≤ num := hall _ (List.mem_cons_self _ _)
    have hnotgt : ¬ num < idx := by omega
    by_cases heq : idx = num
    · have hnlt : ¬ idx < bitset.length := by rw [hblen]; omega
      simp only [buildLabelListAux, if_neg hnotgt, dif_neg hnlt]
    · have hidx : idx < num := by omega
      have hlt : idx < bitset.length := by rw [hblen]; exact hidx
      have hfresh0 : bitset.getD idx false = false :=
        hfresh _ (List.mem_cons_self _ _) hidx
      have hset' : bitset.get ⟨idx, hlt⟩ = false := by
        rw [getD_eq_getElem' _ _ _ hlt] at hfresh0
        exact hfresh0
      have hpair : (idx ∉ rest.map Prod.snd) ∧ (rest.map Prod.snd).Nodup := by
        rw [List.map_cons, List.nodup_cons] at hnodup
        exact hnodup
      simp only [buildLabelListAux, if_neg hnotgt, dif_pos hlt, hset', Bool.false_eq_true,
        if_false]
      refine ih (bitset.set idx true) (labels.set idx name)
        (by rw [List.length_set]; exact hblen)
        (fun p hp => hall p (List.mem_cons_of_mem _ hp)) hpair.2 ?_ ?_
      · intro p hp hplt
        have hpne : idx ≠ p.2 := by
          intro hcontra
          exact hpair.1 (hcontra ▸ List.mem_map_of_mem Prod.snd hp)
        rw [getD_set_other bitset idx p.2 true hpne]
        exact hfresh p (List.mem_cons_of_mem _ hp) hplt
      · rcases hex with ⟨p, hp, hpeq⟩
        rcases List.mem_cons.mp hp with heqp | hmem
        · rw [heqp] at hpeq
          exact absurd hpeq heq
        · exact ⟨p, hmem, hpeq⟩

/-- C7 counterexample: two distinct vertex labels mapped to the same
index: shuffleAndBuild rejects the mapping, but with ErrorCode::kIOError,
the same code the loader uses for missing metadata and read failures; the
error enumeration the loader draws from (last conjunct) has no separate
internal-consistency code at all, so the claimed InternalConsistencyError
cannot be the raised error. -/
theorem buildLabelList_duplicate_counterexample :
    buildLabelList [("a", 0), ("b", 0)] 2 =
      Except.error (BuildLabelErr.gs
        ⟨ErrorCode.kIOError, "Multiple vertex labels are mapped to one index."⟩) ∧
    (∀ c : ErrorCode, c = ErrorCode.kIOError ∨ c = ErrorCode.kDataTypeError ∨
      c = ErrorCode.kInvalidOperationError ∨ c = ErrorCode.kInvalidValueError) := by
  constructor
  · rfl
  · intro c
    cases c
    · exact Or.inl rfl
    · exact Or.inr (Or.inl rfl)
    · exact Or.inr (Or.inr (Or.inl rfl))
    · exact Or.inr (Or.inr (Or.inr rfl))

/-- C7 (amended): walking a label-to-index map over `num` labels in
shuffleAndBuild: a repeated index (all indices in range) fails with
kIOError "Multiple vertex labels are mapped to one index."; an index
strictly greater than the label count fails (with kIOError "Failed to map
vertex label to index" when reached first); but an index exactly equal to
the label count escapes the greater-than range check and the loop then
reads past the end of the bitset, which is undefined behaviour, not the
claimed error. -/
theorem buildLabelList_consistency (pairs : List (String × Nat)) (num : Nat) :
    ((∀ p ∈ pairs, p.2 < num) → ¬ (pairs.map Prod.snd).Nodup →
      buildLabelList pairs num = Except.error (BuildLabelErr.gs
        ⟨ErrorCode.kIOError, "Multiple vertex labels are mapped to one index."⟩))
    ∧ ((∃ p ∈ pairs, num < p.2) →
      ∃ e, buildLabelList pairs num = Except.error e)
    ∧ ((∀ p ∈ pairs, p.2 ≤ num) → (pairs.map Prod.snd).Nodup → (∃ p ∈ pairs, p.2 = num) →
      buildLabelList pairs num = Except.error BuildLabelErr.oob) := by
  refine ⟨fun hall hdup => ?_, fun hov => ?_, fun hall hnodup hex => ?_⟩
  · exact buildLabelListAux_dup num pairs _ _ (by simp) hall (Or.inl hdup)
  · exact buildLabelListAux_overflow num pairs _ _ hov
  · refine buildLabelListAux_oob num pairs _ _ (by simp) hall hnodup ?_ hex
    intro p _ hplt
    rw [getD_eq_getElem' _ _ _ (by simpa using hplt)]
    exact List.getElem_replicate ..

/-- C7 witness: the three behaviours at concrete label maps: a duplicate
index among three labels, an index past the count, and an index exactly
equal to the count. -/
theorem buildLabelList_consistency_witness :
    buildLabelList [("a", 0), ("b", 1), ("c", 1)] 3 =
      Except.error (BuildLabelErr.gs
        ⟨ErrorCode.kIOError, "Multiple vertex labels are mapped to one index."⟩) ∧
    (∃ e, buildLabelList [("a", 5)] 2 = Except.error e) ∧
    buildLabelList [("a", 0), ("b", 2)] 2 = Except.error BuildLabelErr.oob :=
  ⟨(buildLabelList_consistency [("a", 0), ("b", 1), ("c", 1)] 3).1 (by decide) (by decide),
   (buildLabelList_consistency [("a", 5)] 2).2.1 ⟨("a", 5), by decide⟩,
   (buildLabelList_consistency [("a", 0), ("b", 2)] 2).2.2 (by decide) (by decide)
     ⟨("b", 2), by decide⟩⟩

/-! ## Table acquisition: loadEdgeTables and loadEVTablesFromEFiles -/

/-- The key=value metadata of one edge sub-source, as the IO adaptor
exposes it from the path descriptor (keys label, src_label and
dst_label). -/
structure SubSourceMeta where
  label : Option String
  src_label : Option String
  dst_label : Option String
deriving DecidableEq, Repr

/-- One edge sub-source as one worker processes it: its metadata, the
table its partial read produces, and the schema list that the
GlobalAllGatherv inside SyncSchema returns for this read across the worker
group. The gathered list is an input of the model: it is the environment
interaction of the collective. -/
structure SubSource where
  meta : SubSourceMeta
  table : ATable
  gathered : List (Option Schema)
deriving DecidableEq, Repr

/-- The collective steps a worker participates in, recorded as a trace:
a sync_gs_error agreement round and the schema all-gather. -/
inductive CollectiveEvent where
  | syncGsError
  | allGatherSchemas
deriving DecidableEq, Repr

/-- The collectives every sub-source read performs before its metadata is
inspected: the read is wrapped in sync_gs_error, then SyncSchema performs
the all-gather and is itself wrapped in sync_gs_error. -/
def subSourceEvents : List CollectiveEvent :=
  [CollectiveEvent.syncGsError, CollectiveEvent.allGatherSchemas, CollectiveEvent.syncGsError]

/-- Lookup in an association-list model of std::map (find, or end). -/
def lookupIndex (m : List (String × Nat)) (k : String) : Option Nat :=
  (m.find? (fun p => p.1 = k)).map (fun p => p.2)

/-- Set-or-insert on the association list, the effect of
map::operator[] assignment. -/
def mapSet (m : List (String × Nat)) (k : String) (v : Nat) : List (String × Nat) :=
  if (m.find? (fun p => p.1 = k)).isSome then
    m.map (fun p => if p.1 = k then (k, v) else p)
  else m ++ [(k, v)]

/-- Deduplicating insert for std::set of (src-label, dst-label) pairs per
edge label. -/
def setInsert (s : List (String × (String × String))) (x : String × (String × String)) :
    List (String × (String × String)) :=
  if x ∈ s then s else s ++ [x]

/-- Per sub-source step of loadEdgeTables (arrow_fragment_loader.h:
500-567): the read and SyncSchema (the caller records their collectives),
then the metadata checks in source order: label, src_label, the
label-to-index lookup for src (map::at, whose out_of_range exception the
surrounding catch converts to kIOError), dst_label, and the lookup for
dst. -/
def processEdgeSub (vIndex : List (String × Nat)) (ss : SubSource) :
    GSResult (ATable × String × String × String) :=
  match SyncSchema (some ss.table) ss.gathered with
  | Except.error e => Except.error e
  | Except.ok nt =>
    match ss.meta.label with
    | none => Except.error
        ⟨ErrorCode.kIOError, "Metadata of input edge files should contain label name"⟩
    | some lbl =>
      match ss.meta.src_label with
      | none => Except.error
          ⟨ErrorCode.kIOError, "Metadata of input edge files should contain src label name"⟩
      | some sl =>
        match lookupIndex vIndex sl with
        | none => Except.error ⟨ErrorCode.kIOError, "map::at"⟩
        | some _ =>
          match ss.meta.dst_label with
          | none => Except.error
              ⟨ErrorCode.kIOError, "Metadata of input edge files should contain dst label name"⟩
          | some dl =>
            match lookupIndex vIndex dl with
            | none => Except.error ⟨ErrorCode.kIOError, "map::at"⟩
            | some _ => Except.ok (nt, lbl, sl, dl)

/-- The bookkeeping loadEdgeTables accumulates: the per-edge-label
(src-label, dst-label) relation set and the edge label-to-index map. -/
structure EdgeAcqState where
  edge_vertex_label : List (String × (String × String))
  edge_label_to_index : List (String × Nat)
deriving DecidableEq, Repr

/-- The inner loop of loadEdgeTables over the sub-sources of one edge
label: note that edge_label_to_index is assigned unconditionally
(arrow_fragment_loader.h:566), overwriting any previous index for the same
label name without a consistency check. -/
def loadEdgeSubs (vIndex : List (String × Nat)) (labelId : Nat) :
    List SubSource → EdgeAcqState →
    (GSResult (List ATable × EdgeAcqState)) × List CollectiveEvent
  | [], st => (Except.ok ([], st), [])
  | ss :: rest, st =>
    match processEdgeSub vIndex ss with
    | Except.error e => (Except.error e, subSourceEvents)
    | Except.ok (nt, lbl, sl, dl) =>
      let st' : EdgeAcqState :=
        ⟨setInsert st.edge_vertex_label (lbl, (sl, dl)),
         mapSet st.edge_label_to_index lbl labelId⟩
      match loadEdgeSubs vIndex labelId rest st' with
      | (Except.error e, tr) => (Except.error e, subSourceEvents ++ tr)
      | (Except.ok (ts, st''), tr) => (Except.ok (nt :: ts, st''), subSourceEvents ++ tr)

/-- The outer loop of loadEdgeTables over the per-label file groups. -/
def loadEdgeFiles (vIndex : List (String × Nat)) :
    Nat → List (List SubSource) → EdgeAcqState →
    (GSResult (List (List ATable) × EdgeAcqState)) × List CollectiveEvent
  | _, [], st => (Except.ok ([], st), [])
  | labelId, subs :: rest, st =>
    match loadEdgeSubs vIndex labelId subs st with
    | (Except.error e, tr) => (Except.error e, tr)
    | (Except.ok (ts, st'), tr) =>
      match loadEdgeFiles vIndex (labelId + 1) rest st' with
      | (Except.error e, tr') => (Except.error e, tr ++ tr')
      | (Except.ok (tss, st''), tr') => (Except.ok (ts :: tss, st''), tr ++ tr')

/-- loadEdgeTables (arrow_fragment_loader.h:489-573), one worker's view:
vertex_label_to_index_ was filled by loadVertexTables before; the files of
every edge label are read, schema-synchronized, checked and tagged, and
the trace records the collectives performed. -/
def loadEdgeTables (vIndex : List (String × Nat)) (files : List (List SubSource)) :
    (GSResult (List (List ATable) × EdgeAcqState)) × List CollectiveEvent :=
  loadEdgeFiles vIndex 0 files ⟨[], []⟩

/-! ## Vertex-less mode: loadEVTablesFromEFiles -/

/-- Phase one of loadEVTablesFromEFiles (arrow_fragment_loader.h:580-609):
without opening any file and before any collective, the src and dst label
names of every sub-source are collected; a sub-source missing either key
fails with kIOError at once. The scan returns the names in encounter
order (src before dst per sub-source). -/
def discoverLabels : List SubSource → GSResult (List String)
  | [] => Except.ok []
  | ss :: rest =>
    match ss.meta.src_label, ss.meta.dst_label with
    | some sl, some dl =>
      (discoverLabels rest).map (fun ns => sl :: dl :: ns)
    | _, _ => Except.error
        ⟨ErrorCode.kIOError, "Metadata of input edge files should contain label name"⟩

/-- The label numbering loop of loadEVTablesFromEFiles
(arrow_fragment_loader.h:614-619): the discovered names are iterated in
the order of the std::set, that is sorted and without duplicates, and
numbered consecutively. -/
def vIndexOfAux : Nat → List String → List (String × Nat)
  | _, [] => []
  | i, n :: rest => (n, i) :: vIndexOfAux (i + 1) rest

/-- The vertex label-to-index map induced by an ordered name list. -/
def vIndexOf (names : List String) : List (String × Nat) :=
  vIndexOfAux 0 names

/-- The sorted duplicate-free name list a std::set of the discovered
names iterates. -/
def sortedLabelSet (names : List String) : List String :=
  names.dedup.insertionSort (fun a b => a ≤ b)

/-- Modelled from the spec: OidSet (property_graph_utils.h, outside the
sampled sources) is the per-vertex-label deduplicating OID set of section
4.2; insert keeps the first occurrence and drops repeats. -/
def oidInsert (s : List Int) (x : Int) : List Int :=
  if x ∈ s then s else s ++ [x]

/-- Folded insert of a value list into the OID set. -/
def oidInsertList (s : List Int) (xs : List Int) : List Int :=
  xs.foldl oidInsert s

/-- The integer value of a cell of an OID column, when it is one. -/
def cellInt : CellValue → Option Int
  | CellValue.vInt i => some i
  | _ => none

/-- All cells of a chunked column, in chunk order. -/
def columnCells (chunks : List ArrowArray) : List CellValue :=
  chunks.flatMap (fun a => a.data)

/-- The integer values of a cell list, or none when a non-integer cell
appears. -/
def cellIntsOf : List CellValue → Option (List Int)
  | [] => some []
  | c :: rest =>
    match cellInt c with
    | none => none
    | some i =>
      match cellIntsOf rest with
      | none => none
      | some is => some (i :: is)

/-- Modelled from the spec: OidSet::BatchInsert consumes a chunked OID
column; with int64 OIDs every cell must be an integer, and all values are
inserted in order into the deduplicating set. -/
def BatchInsert (s : List Int) (chunks : List ArrowArray) : GSResult (List Int) :=
  match cellIntsOf (columnCells chunks) with
  | none => Except.error ⟨ErrorCode.kDataTypeError, "expect a column of OID type"⟩
  | some xs => Except.ok (oidInsertList s xs)

/-- The bookkeeping of loadEVTablesFromEFiles: the per-label OID sets and
the same two maps loadEdgeTables keeps. -/
structure EVState where
  oids : List (List Int)
  edge_vertex_label : List (String × (String × String))
  edge_label_to_index : List (String × Nat)
deriving DecidableEq, Repr

/-- Per sub-source step of phase two of loadEVTablesFromEFiles
(arrow_fragment_loader.h:633-722): read and SyncSchema (collectives
recorded by the caller), metadata checks in source order, the
edge-label-to-index consistency check — a label already mapped to a
different index fails with kInvalidValueError — and the insertion of both
endpoint columns into the per-label OID sets. -/
def processEVSub (vIndex : List (String × Nat)) (labelId : Nat) (ss : SubSource)
    (st : EVState) : GSResult (ATable × EVState) :=
  match SyncSchema (some ss.table) ss.gathered with
  | Except.error e => Except.error e
  | Except.ok e_table =>
    match ss.meta.label with
    | none => Except.error
        ⟨ErrorCode.kIOError, "Metadata of input edge files should contain label name"⟩
    | some lbl =>
      match ss.meta.src_label with
      | none => Except.error
          ⟨ErrorCode.kIOError, "Metadata of input edge files should contain src label name"⟩
      | some sl =>
        match lookupIndex vIndex sl with
        | none => Except.error ⟨ErrorCode.kIOError, "map::at"⟩
        | some src_id =>
          match ss.meta.dst_label with
          | none => Except.error
              ⟨ErrorCode.kIOError, "Metadata of input edge files should contain dst label name"⟩
          | some dl =>
            match lookupIndex vIndex dl with
            | none => Except.error ⟨ErrorCode.kIOError, "map::at"⟩
            | some dst_id =>
              let evl := setInsert st.edge_vertex_label (lbl, (sl, dl))
              match lookupIndex st.edge_label_to_index lbl with
              | some k =>
                if k ≠ labelId then
                  Except.error ⟨ErrorCode.kInvalidValueError,
                    "Edge label is not consistent, " ++ lbl ++ ": " ++ toString labelId ++
                      " vs " ++ toString k⟩
                else
                  match BatchInsert (st.oids.getD src_id []) (e_table.columns.getD 0 []) with
                  | Except.error e => Except.error e
                  | Except.ok s1 =>
                    let oids' := st.oids.set src_id s1
                    match BatchInsert (oids'.getD dst_id []) (e_table.columns.getD 1 []) with
                    | Except.error e => Except.error e
                    | Except.ok s2 =>
                      Except.ok (e_table, ⟨oids'.set dst_id s2, evl, st.edge_label_to_index⟩)
              | none =>
                match BatchInsert (st.oids.getD src_id []) (e_table.columns.getD 0 []) with
                | Except.error e => Except.error e
                | Except.ok s1 =>
                  let oids' := st.oids.set src_id s1
                  match BatchInsert (oids'.getD dst_id []) (e_table.columns.getD 1 []) with
                  | Except.error e => Except.error e
                  | Except.ok s2 =>
                    Except.ok (e_table, ⟨oids'.set dst_id s2, evl,
                      st.edge_label_to_index ++ [(lbl, labelId)]⟩)

/-- The inner loop of phase two over the sub-sources of one edge label. -/
def loadEVSubs (vIndex : List (String × Nat)) (labelId : Nat) :
    List SubSource → EVState →
    (GSResult (List ATable × EVState)) × List CollectiveEvent
  | [], st => (Except.ok ([], st), [])
  | ss :: rest, st =>
    match processEVSub vIndex labelId ss st with
    | Except.error e => (Except.error e, subSourceEvents)
    | Except.ok (nt, st') =>
      match loadEVSubs vIndex labelId rest st' with
      | (Except.error e, tr) => (Except.error e, subSourceEvents ++ tr)
      | (Except.ok (ts, st''), tr) => (Except.ok (nt :: ts, st''), subSourceEvents ++ tr)

/-- The outer loop of phase two over the per-label file groups. -/
def loadEVFiles (vIndex : List (String × Nat)) :
    Nat → List (List SubSource) → EVState →
    (GSResult (List (List ATable) × EVState)) × List CollectiveEvent
  | _, [], st => (Except.ok ([], st), [])
  | labelId, subs :: rest, st =>
    match loadEVSubs vIndex labelId subs st with
    | (Except.error e, tr) => (Except.error e, tr)
    | (Except.ok (ts, st'), tr) =>
      match loadEVFiles vIndex (labelId + 1) rest st' with
      | (Except.error e, tr') => (Except.error e, tr ++ tr')
      | (Except.ok (tss, st''), tr') => (Except.ok (ts :: tss, st''), tr ++ tr')

/-- Phase three of loadEVTablesFromEFiles (arrow_fragment_loader.h:
729-747): each OID set becomes a synthetic single-column vertex table,
named after its vertex label, with the OID arrow type (int64 here). -/
def synthesizeVTables (names : List String) (oids : List (List Int)) : List ATable :=
  (List.range names.length).map (fun k =>
    ⟨[⟨names.getD k "", ArrowType.int64⟩],
     [[⟨ArrowType.int64, (oids.getD k []).map CellValue.vInt⟩]]⟩)

/-- loadEVTablesFromEFiles (arrow_fragment_loader.h:575-749), one worker's
view: discover the vertex label names from metadata only (no collective),
number them in sorted-set order, scan every sub-source once collecting
endpoint OIDs, then synthesize the per-label vertex tables. Returns the
vertex tables, the edge tables, the ordered name list, the vertex
label-to-index map and the final state, with the collective trace. -/
def loadEVTablesFromEFiles (files : List (List SubSource)) :
    (GSResult (List ATable × List (List ATable) × List String × List (String × Nat) × EVState))
      × List CollectiveEvent :=
  match discoverLabels files.flatten with
  | Except.error e => (Except.error e, [])
  | Except.ok found =>
    let names := sortedLabelSet found
    let vIndex := vIndexOf names
    let st0 : EVState := ⟨names.map (fun _ => []), [], []⟩
    match loadEVFiles vIndex 0 files st0 with
    | (Except.error e, tr) => (Except.error e, tr)
    | (Except.ok (etables, st), tr) =>
      (Except.ok (synthesizeVTables names st.oids, etables, names, vIndex, st), tr)

/-! ## C4: missing src_label metadata -/

lemma discoverLabels_missing (l : List SubSource)
    (h : ∃ ss ∈ l, ss.meta.src_label = none ∨ ss.meta.dst_label = none) :
    discoverLabels l = Except.error
      ⟨ErrorCode.kIOError, "Metadata of input edge files should contain label name"⟩ := by
  induction l with
  | nil => simp at h
  | cons ss rest ih =>
    cases hsrc : ss.meta.src_label with
    | none => simp only [discoverLabels, hsrc]
    | some sl =>
      cases hdst : ss.meta.dst_label with
      | none => simp only [discoverLabels, hsrc, hdst]
      | some dl =>
        have h' : ∃ x ∈ rest, x.meta.src_label = none ∨ x.meta.dst_label = none := by
          rcases h with ⟨x, hx, hprop⟩
          rcases List.mem_cons.mp hx with rfl | hmem
          · rcases hprop with hp | hp
            · rw [hsrc] at hp; cases hp
            · rw [hdst] at hp; cases hp
          · exact ⟨x, hmem, hprop⟩
        simp only [discoverLabels, hsrc, hdst, ih h', Except.map]

/-- C4 counterexample: an edge sub-source whose metadata lacks src_label:
in the vertex-file mode (loadEdgeTables) the load does fail, but only
after the read and schema-sync collectives of that sub-source have run
(the trace is non-empty), and with ErrorCode::kIOError, not a distinct
input-error code. -/
theorem loadEdgeTables_missing_src_counterexample :
    loadEdgeTables [("v", 0)]
      [[⟨⟨some "e0", none, some "v"⟩,
         ⟨[⟨"s", ArrowType.int64⟩, ⟨"d", ArrowType.int64⟩],
          [[⟨ArrowType.int64, [CellValue.vInt 10]⟩], [⟨ArrowType.int64, [CellValue.vInt 20]⟩]]⟩,
         [some [⟨"s", ArrowType.int64⟩, ⟨"d", ArrowType.int64⟩]]⟩]] =
      (Except.error
        ⟨ErrorCode.kIOError, "Metadata of input edge files should contain src label name"⟩,
       [CollectiveEvent.syncGsError, CollectiveEvent.allGatherSchemas,
        CollectiveEvent.syncGsError]) ∧
    ([CollectiveEvent.syncGsError, CollectiveEvent.allGatherSchemas,
      CollectiveEvent.syncGsError] : List CollectiveEvent) ≠ [] :=
  ⟨rfl, by simp⟩

/-- C4 (amended): a sub-source missing src_label (or dst_label) fails the
load with kIOError. In vertex-less mode the metadata scan runs before any
collective, so the failure carries an empty collective trace. In the
vertex-file mode the sub-source is first read and schema-synchronized —
both collective rounds wrapped in the error-synchronizing combinator, so
peers observe the same outcome instead of deadlocking — and only then does
the metadata check fail, with the trace showing the collectives that
already ran. -/
theorem missing_src_label_fails_with_kIOError :
    (∀ files : List (List SubSource),
      (∃ ss ∈ files.flatten, ss.meta.src_label = none ∨ ss.meta.dst_label = none) →
      loadEVTablesFromEFiles files =
        (Except.error
          ⟨ErrorCode.kIOError, "Metadata of input edge files should contain label name"⟩,
         []))
    ∧ (∀ (vIndex : List (String × Nat)) (ss : SubSource) (nt : ATable) (lbl : String),
      SyncSchema (some ss.table) ss.gathered = Except.ok nt →
      ss.meta.label = some lbl →
      ss.meta.src_label = none →
      loadEdgeTables vIndex [[ss]] =
        (Except.error
          ⟨ErrorCode.kIOError, "Metadata of input edge files should contain src label name"⟩,
         subSourceEvents) ∧
      subSourceEvents ≠ []) := by
  constructor
  · intro files h
    simp only [loadEVTablesFromEFiles, discoverLabels_missing files.flatten h]
  · intro vIndex ss nt lbl h1 h2 h3
    have hstep : processEdgeSub vIndex ss = Except.error
        ⟨ErrorCode.kIOError, "Metadata of input edge files should contain src label name"⟩ := by
      simp only [processEdgeSub, h1, h2, h3]
    constructor
    · simp only [loadEdgeTables, loadEdgeFiles, loadEdgeSubs, hstep]
    · simp [subSourceEvents]

/-- C4 witness: the amended theorem at a concrete vertex-less input and a
concrete single sub-source missing src_label. -/
theorem missing_src_label_fails_witness :
    loadEVTablesFromEFiles
      [[⟨⟨some "e0", none, some "v"⟩, ⟨[], []⟩, []⟩]] =
      (Except.error
        ⟨ErrorCode.kIOError, "Metadata of input edge files should contain label name"⟩,
       []) ∧
    loadEdgeTables [("v", 0)]
      [[⟨⟨some "e0", none, some "v"⟩,
         ⟨[⟨"s", ArrowType.int64⟩], [[⟨ArrowType.int64, []⟩]]⟩,
         [some [⟨"s", ArrowType.int64⟩]]⟩]] =
      (Except.error
        ⟨ErrorCode.kIOError, "Metadata of input edge files should contain src label name"⟩,
       subSourceEvents) :=
  ⟨missing_src_label_fails_with_kIOError.1
      [[⟨⟨some "e0", none, some "v"⟩, ⟨[], []⟩, []⟩]]
      ⟨⟨⟨some "e0", none, some "v"⟩, ⟨[], []⟩, []⟩, by simp, Or.inl rfl⟩,
   (missing_src_label_fails_with_kIOError.2 [("v", 0)]
      ⟨⟨some "e0", none, some "v"⟩,
        ⟨[⟨"s", ArrowType.int64⟩], [[⟨ArrowType.int64, []⟩]]⟩,
        [some [⟨"s", ArrowType.int64⟩]]⟩
      ⟨[⟨"s", ArrowType.int64⟩], [[⟨ArrowType.int64, []⟩]]⟩ "e0" rfl rfl rfl).1⟩

/-! ## C6: edge label-to-index consistency -/

/-- A sub-source every check of loadEdgeTables accepts: its schema sync
succeeds and all three metadata keys are present with registered vertex
labels. -/
def cleanEdgeSub (vIndex : List (String × Nat)) (ss : SubSource) : Prop :=
  (∃ nt, SyncSchema (some ss.table) ss.gathered = Except.ok nt) ∧
  (∃ l, ss.meta.label = some l) ∧
  (∃ sl si, ss.meta.src_label = some sl ∧ lookupIndex vIndex sl = some si) ∧
  (∃ dl di, ss.meta.dst_label = some dl ∧ lookupIndex vIndex dl = some di)

lemma processEdgeSub_ok (vIndex : List (String × Nat)) (ss : SubSource)
    (hc : cleanEdgeSub vIndex ss) :
    ∃ r, processEdgeSub vIndex ss = Except.ok r := by
  obtain ⟨⟨nt, h1⟩, ⟨l, h2⟩, ⟨sl, si, h3, h4⟩, ⟨dl, di, h5, h6⟩⟩ := hc
  exact ⟨(nt, l, sl, dl), by simp only [processEdgeSub, h1, h2, h3, h4, h5, h6]⟩

lemma loadEdgeSubs_ok (vIndex : List (String × Nat)) (labelId : Nat)
    (subs : List SubSource) (st : EdgeAcqState)
    (hc : ∀ ss ∈ subs, cleanEdgeSub vIndex ss) :
    ∃ ts st' tr, loadEdgeSubs vIndex labelId subs st = (Except.ok (ts, st'), tr) := by
  induction subs generalizing st with
  | nil => exact ⟨[], st, [], rfl⟩
  | cons ss rest ih =>
    obtain ⟨r, hr⟩ := processEdgeSub_ok vIndex ss (hc ss (List.mem_cons_self _ _))
    obtain ⟨nt, lbl, sl, dl⟩ := r
    obtain ⟨ts, st', tr, hrest⟩ := ih
      (⟨setInsert st.edge_vertex_label (lbl, (sl, dl)),
        mapSet st.edge_label_to_index lbl labelId⟩)
      (fun x hx => hc x (List.mem_cons_of_mem _ hx))
    exact ⟨nt :: ts, st', subSourceEvents ++ tr, by
      simp only [loadEdgeSubs, hr, hrest]⟩

lemma loadEdgeFiles_ok (vIndex : List (String × Nat)) (n : Nat)
    (files : List (List SubSource)) (st : EdgeAcqState)
    (hc : ∀ subs ∈ files, ∀ ss ∈ subs, cleanEdgeSub vIndex ss) :
    ∃ tss st' tr, loadEdgeFiles vIndex n files st = (Except.ok (tss, st'), tr) := by
  induction files generalizing n st with
  | nil => exact ⟨[], st, [], rfl⟩
  | cons subs rest ih =>
    obtain ⟨ts, st', tr, hsubs⟩ :=
      loadEdgeSubs_ok vIndex n subs st (hc subs (List.mem_cons_self _ _))
    obtain ⟨tss, st'', tr', hrest⟩ := ih (n + 1) st'
      (fun x hx => hc x (List.mem_cons_of_mem _ hx))
    exact ⟨ts :: tss, st'', tr ++ tr', by
      simp only [loadEdgeFiles, hsubs, hrest]⟩

/-- C6 counterexample: two edge files declare the same edge label "e0", so
the label is acquired first under index 0 and then under index 1 — two
different indices for one label name — yet loadEdgeTables succeeds: the
second assignment silently overwrites the first (final map maps "e0" to
1) and no kInvalidValueError is raised. -/
theorem loadEdgeTables_label_mismatch_counterexample :
    (∃ tables,
      (loadEdgeTables [("v", 0)]
        [[⟨⟨some "e0", some "v", some "v"⟩,
           ⟨[⟨"s", ArrowType.int64⟩], [[⟨ArrowType.int64, [CellValue.vInt 1]⟩]]⟩,
           [some [⟨"s", ArrowType.int64⟩]]⟩],
         [⟨⟨some "e0", some "v", some "v"⟩,
           ⟨[⟨"s", ArrowType.int64⟩], [[⟨ArrowType.int64, [CellValue.vInt 1]⟩]]⟩,
           [some [⟨"s", ArrowType.int64⟩]]⟩]]).1 =
        Except.ok (tables, ⟨[("e0", ("v", "v"))], [("e0", 1)]⟩)) ∧
    (1 : Nat) ≠ 0 :=
  ⟨⟨_, rfl⟩, by simp⟩

/-! ## C8: constructFragmentGroup -/

lemma getD_map_range' {α : Type} (f : Nat → α) (d : α) (n i : Nat) (h : i < n) :
    ((List.range n).map f).getD i d = f i := by
  have hlen : i < ((List.range n).map f).length := by simpa using h
  simp only [List.getD, List.get?_eq_getElem?, List.getElem?_eq_getElem hlen, Option.getD_some,
    List.getElem_map, List.getElem_range]

/-- The fragment-group registry (ArrowFragmentGroupBuilder, outside the
sampled sources; modelled from the spec: a registry keyed by global
partition id holding each fragment handle and owning instance, plus the
counts the builder is given). -/
structure ArrowFragmentGroup where
  total_frag_num : Nat
  vertex_label_num : Nat
  edge_label_num : Nat
  fragments : List (Nat × (Nat × Nat))
deriving DecidableEq, Repr

/-- constructFragmentGroup (arrow_fragment_loader.h:384-432), whole-group
view. The collectives are collapsed to their contract (section 6 of the
specification): the gather at rank 0 yields the rank-indexed arrays of
instance ids and fragment object ids, rank 0 builds the registry —
total_frag_num := fnum and, for every partition i, the fragment object and
instance gathered from the worker FragToWorker(i) — seals it, and the
broadcast hands the sealed handle to every rank. The sealing of the object
store is a parameter sealObj. Returns every worker's returned handle (by rank)
and the registry rank 0 built. -/
def constructFragmentGroup (wnum fnum : Nat) (fragToWorker : Nat → Nat)
    (fragIds instIds : Nat → Nat) (v_label_num e_label_num : Nat)
    (sealObj : ArrowFragmentGroup → Nat) : List Nat × ArrowFragmentGroup :=
  let gathered_instance_ids := (List.range wnum).map instIds
  let gathered_object_ids := (List.range wnum).map fragIds
  let group : ArrowFragmentGroup :=
    ⟨fnum, v_label_num, e_label_num,
     (List.range fnum).map (fun i =>
       (i, (gathered_object_ids.getD (fragToWorker i) 0,
            gathered_instance_ids.getD (fragToWorker i) 0)))⟩
  let group_object_id := sealObj group
  ((List.range wnum).map (fun _ => group_object_id), group)

/-- C8: the registry rank 0 gathers and builds has total fragment count
equal to the partition count, maps every partition i to the fragment
handle and instance identity of the worker owning partition i, and after
the broadcast every worker — coordinator and non-coordinators alike —
returns the same sealed group handle. -/
theorem constructFragmentGroup_registry (wnum fnum v_label_num e_label_num : Nat)
    (fragToWorker fragIds instIds : Nat → Nat) (sealObj : ArrowFragmentGroup → Nat)
    (hftw : ∀ i, i < fnum → fragToWorker i < wnum) :
    (constructFragmentGroup wnum fnum fragToWorker fragIds instIds
        v_label_num e_label_num sealObj).2.total_frag_num = fnum ∧
    (constructFragmentGroup wnum fnum fragToWorker fragIds instIds
        v_label_num e_label_num sealObj).2.vertex_label_num = v_label_num ∧
    (constructFragmentGroup wnum fnum fragToWorker fragIds instIds
        v_label_num e_label_num sealObj).2.edge_label_num = e_label_num ∧
    (constructFragmentGroup wnum fnum fragToWorker fragIds instIds
        v_label_num e_label_num sealObj).2.fragments.length = fnum ∧
    (∀ i, i < fnum →
      (constructFragmentGroup wnum fnum fragToWorker fragIds instIds
          v_label_num e_label_num sealObj).2.fragments.getD i (0, (0, 0)) =
        (i, (fragIds (fragToWorker i), instIds (fragToWorker i)))) ∧
    (constructFragmentGroup wnum fnum fragToWorker fragIds instIds
        v_label_num e_label_num sealObj).1.length = wnum ∧
    (∀ w, w < wnum →
      (constructFragmentGroup wnum fnum fragToWorker fragIds instIds
          v_label_num e_label_num sealObj).1.getD w 0 =
        sealObj (constructFragmentGroup wnum fnum fragToWorker fragIds instIds
          v_label_num e_label_num sealObj).2) := by
  refine ⟨rfl, rfl, rfl, by simp [constructFragmentGroup], ?_, by simp [constructFragmentGroup],
    ?_⟩
  · intro i hi
    show ((List.range fnum).map (fun i =>
        (i, (((List.range wnum).map fragIds).getD (fragToWorker i) 0,
             ((List.range wnum).map instIds).getD (fragToWorker i) 0)))).getD i (0, (0, 0)) = _
    rw [getD_map_range' _ _ _ _ hi,
      getD_map_range' fragIds _ _ _ (hftw i hi), getD_map_range' instIds _ _ _ (hftw i hi)]
  · intro w hw
    show ((List.range wnum).map (fun _ => _)).getD w 0 = _
    rw [getD_map_range' _ _ _ _ hw]
    rfl

/-- C8 witness: two workers and two partitions with the identity
partition-to-worker map, distinct fragment handles 100 and 101 and
instance identities 7 and 8, and a concrete sealing function. -/
theorem constructFragmentGroup_registry_witness :
    (constructFragmentGroup 2 2 id (fun w => 100 + w) (fun w => 7 + w) 3 4
        (fun _ => 42)).2.total_frag_num = 2 ∧
    (constructFragmentGroup 2 2 id (fun w => 100 + w) (fun w => 7 + w) 3 4
        (fun _ => 42)).2.vertex_label_num = 3 ∧
    (constructFragmentGroup 2 2 id (fun w => 100 + w) (fun w => 7 + w) 3 4
        (fun _ => 42)).2.edge_label_num = 4 ∧
    (constructFragmentGroup 2 2 id (fun w => 100 + w) (fun w => 7 + w) 3 4
        (fun _ => 42)).2.fragments.length = 2 ∧
    (∀ i, i < 2 →
      (constructFragmentGroup 2 2 id (fun w => 100 + w) (fun w => 7 + w) 3 4
          (fun _ => 42)).2.fragments.getD i (0, (0, 0)) =
        (i, (100 + i, 7 + i))) ∧
    (constructFragmentGroup 2 2 id (fun w => 100 + w) (fun w => 7 + w) 3 4
        (fun _ => 42)).1.length = 2 ∧
    (∀ w, w < 2 →
      (constructFragmentGroup 2 2 id (fun w => 100 + w) (fun w => 7 + w) 3 4
          (fun _ => 42)).1.getD w 0 =
        (fun _ => 42) (constructFragmentGroup 2 2 id (fun w => 100 + w) (fun w => 7 + w) 3 4
          (fun _ => 42)).2) :=
  constructFragmentGroup_registry 2 2 3 4 id (fun w => 100 + w) (fun w => 7 + w)
    (fun _ => 42) (fun _ hi => hi)

/-! ## C5 and the vertex-less consistency check: supporting lemmas -/

lemma oidInsertList_append (s : List Int) (xs ys : List Int) :
    oidInsertList s (xs ++ ys) = oidInsertList (oidInsertList s xs) ys :=
  List.foldl_append ..

lemma oidInsert_nodup (s : List Int) (x : Int) (h : s.Nodup) : (oidInsert s x).Nodup := by
  unfold oidInsert
  split
  · exact h
  · next hx => simpa [List.nodup_append, h] using hx

lemma oidInsertList_nodup (xs : List Int) (s : List Int) (h : s.Nodup) :
    (oidInsertList s xs).Nodup := by
  induction xs generalizing s with
  | nil => exact h
  | cons x rest ih => exact ih (oidInsert s x) (oidInsert_nodup s x h)

lemma oidInsert_toFinset (s : List Int) (x : Int) :
    (oidInsert s x).toFinset = insert x s.toFinset := by
  unfold oidInsert
  split
  · next hx => exact (Finset.insert_eq_self.mpr (List.mem_toFinset.mpr hx)).symm
  · ext y
    simp [List.mem_toFinset, List.mem_append]
    tauto

lemma oidInsertList_toFinset (xs : List Int) (s : List Int) :
    (oidInsertList s xs).toFinset = s.toFinset ∪ xs.toFinset := by
  induction xs generalizing s with
  | nil => simp [oidInsertList]
  | cons x rest ih =>
    show (oidInsertList (oidInsert s x) rest).toFinset = _
    rw [ih, oidInsert_toFinset, List.toFinset_cons, Finset.insert_union, Finset.union_insert]

lemma setGetD_self {α : Type} (l : List α) (i : Nat) (x d : α) (h : i < l.length) :
    (l.set i x).getD i d = x := by
  rw [getD_eq_getElem' _ _ _ (by simpa using h)]
  exact List.getElem_set_self (by simpa using h)

lemma setGetD_other {α : Type} (l : List α) (i j : Nat) (x d : α) (hne : i ≠ j) :
    (l.set i x).getD j d = l.getD j d := by
  by_cases hj : j < l.length
  · rw [getD_eq_getElem' _ _ _ (by simpa using hj), getD_eq_getElem' _ _ _ hj]
    exact List.getElem_set_ne hne (by simpa using hj)
  · rw [List.getD_eq_default _ _ (by simpa using Nat.le_of_not_lt hj),
      List.getD_eq_default _ _ (Nat.le_of_not_lt hj)]

lemma mapM_cellInt_welltyped (cells : List CellValue)
    (h : ∀ c ∈ cells, (cellInt c).isSome) :
    cellIntsOf cells = some (cells.filterMap cellInt) := by
  induction cells with
  | nil => rfl
  | cons c rest ih =>
    obtain ⟨i, hi⟩ := Option.isSome_iff_exists.mp (h c (List.mem_cons_self _ _))
    have hrest := ih (fun x hx => h x (List.mem_cons_of_mem _ hx))
    simp [cellIntsOf, hi, hrest, List.filterMap_cons]

/-- All integer values of an OID column of a table (chunked column c). -/
def colInts (t : ATable) (c : Nat) : List Int :=
  (columnCells (t.columns.getD c [])).filterMap cellInt

lemma BatchInsert_welltyped (s : List Int) (chunks : List ArrowArray)
    (h : ∀ c ∈ columnCells chunks, (cellInt c).isSome) :
    BatchInsert s chunks =
      Except.ok (oidInsertList s ((columnCells chunks).filterMap cellInt)) := by
  simp only [BatchInsert, mapM_cellInt_welltyped (columnCells chunks) h]

lemma lookupIndex_cons_pos (p : String × Nat) (rest : List (String × Nat)) (l : String)
    (hp : p.1 = l) : lookupIndex (p :: rest) l = some p.2 := by
  unfold lookupIndex
  rw [List.find?_cons_of_pos _ (by simpa using hp)]
  rfl

lemma lookupIndex_cons_neg (p : String × Nat) (rest : List (String × Nat)) (l : String)
    (hp : p.1 ≠ l) : lookupIndex (p :: rest) l = lookupIndex rest l := by
  unfold lookupIndex
  rw [List.find?_cons_of_neg _ (by simpa using hp)]

lemma lookupIndex_append_of_some (m : List (String × Nat)) (x : String × Nat)
    (l : String) (v : Nat) (h : lookupIndex m l = some v) :
    lookupIndex (m ++ [x]) l = some v := by
  induction m with
  | nil => simp [lookupIndex] at h
  | cons p rest ih =>
    by_cases hp : p.1 = l
    · rw [lookupIndex_cons_pos p rest l hp] at h
      rw [List.cons_append, lookupIndex_cons_pos p _ l hp]
      exact h
    · rw [lookupIndex_cons_neg p rest l hp] at h
      rw [List.cons_append, lookupIndex_cons_neg p _ l hp]
      exact ih h

lemma lookupIndex_append_self (m : List (String × Nat)) (lbl : String) (v : Nat)
    (h : lookupIndex m lbl = none) :
    lookupIndex (m ++ [(lbl, v)]) lbl = some v := by
  induction m with
  | nil => exact lookupIndex_cons_pos (lbl, v) [] lbl rfl
  | cons p rest ih =>
    by_cases hp : p.1 = lbl
    · rw [lookupIndex_cons_pos p rest lbl hp] at h
      cases h
    · rw [lookupIndex_cons_neg p rest lbl hp] at h
      rw [List.cons_append, lookupIndex_cons_neg p _ lbl hp]
      exact ih h

lemma lookupIndex_append_inv (m : List (String × Nat)) (lbl : String) (v0 : Nat)
    (l : String) (v : Nat) (h : lookupIndex (m ++ [(lbl, v0)]) l = some v) :
    lookupIndex m l = some v ∨ (l = lbl ∧ v = v0) := by
  induction m with
  | nil =>
    by_cases hp : lbl = l
    · rw [List.nil_append, lookupIndex_cons_pos (lbl, v0) [] l hp] at h
      right
      exact ⟨hp.symm, (Option.some.inj h).symm⟩
    · rw [List.nil_append, lookupIndex_cons_neg (lbl, v0) [] l hp] at h
      simp [lookupIndex] at h
  | cons p rest ih =>
    by_cases hp : p.1 = l
    · rw [List.cons_append, lookupIndex_cons_pos p _ l hp] at h
      rw [lookupIndex_cons_pos p rest l hp]
      exact Or.inl h
    · rw [List.cons_append, lookupIndex_cons_neg p _ l hp] at h
      rw [lookupIndex_cons_neg p rest l hp]
      exact ih h

/-- A sub-source that every check of phase two accepts: identity schema
sync (the gathered schemas already agree), all metadata keys present, both
endpoint labels registered with in-range indices, and integer endpoint
columns. -/
def cleanEVSub (vIndex : List (String × Nat)) (bound : Nat) (ss : SubSource) : Prop :=
  SyncSchema (some ss.table) ss.gathered = Except.ok ss.table ∧
  (∃ l, ss.meta.label = some l) ∧
  (∃ sl si, ss.meta.src_label = some sl ∧ lookupIndex vIndex sl = some si ∧ si < bound) ∧
  (∃ dl di, ss.meta.dst_label = some dl ∧ lookupIndex vIndex dl = some di ∧ di < bound) ∧
  (∀ c ∈ columnCells (ss.table.columns.getD 0 []), (cellInt c).isSome) ∧
  (∀ c ∈ columnCells (ss.table.columns.getD 1 []), (cellInt c).isSome)

/-- The OID values one sub-source contributes to the set of vertex label
index k: its src column when its src label has index k, then its dst
column when its dst label has index k. -/
def subContribIdx (vIndex : List (String × Nat)) (k : Nat) (ss : SubSource) : List Int :=
  (match ss.meta.src_label with
   | some sl => if lookupIndex vIndex sl = some k then colInts ss.table 0 else []
   | none => []) ++
  (match ss.meta.dst_label with
   | some dl => if lookupIndex vIndex dl = some k then colInts ss.table 1 else []
   | none => [])

lemma processEVSub_spec (vIndex : List (String × Nat)) (labelId : Nat) (ss : SubSource)
    (st : EVState)
    (hc : cleanEVSub vIndex st.oids.length ss)
    (hcons : ∀ lbl, ss.meta.label = some lbl →
      ∀ k, lookupIndex st.edge_label_to_index lbl = some k → k = labelId) :
    ∃ st', processEVSub vIndex labelId ss st = Except.ok (ss.table, st') ∧
      st'.oids.length = st.oids.length ∧
      (∀ k, st'.oids.getD k [] =
        oidInsertList (st.oids.getD k []) (subContribIdx vIndex k ss)) ∧
      (∀ l, ss.meta.label = some l →
        lookupIndex st'.edge_label_to_index l = some labelId) ∧
      (∀ l v, lookupIndex st.edge_label_to_index l = some v →
        lookupIndex st'.edge_label_to_index l = some v) ∧
      (∀ l v, lookupIndex st'.edge_label_to_index l = some v →
        lookupIndex st.edge_label_to_index l = some v ∨
          (ss.meta.label = some l ∧ v = labelId)) := by
  obtain ⟨hsync, ⟨lbl, hlbl⟩, ⟨sl, si, hsl, hsli, hsib⟩, ⟨dl, di, hdl, hdli, hdib⟩,
    hty0, hty1⟩ := hc
  have hB1 := BatchInsert_welltyped (st.oids.getD si []) (ss.table.columns.getD 0 []) hty0
  have hB2 := BatchInsert_welltyped
    ((st.oids.set si (oidInsertList (st.oids.getD si [])
        ((columnCells (ss.table.columns.getD 0 [])).filterMap cellInt))).getD di [])
    (ss.table.columns.getD 1 []) hty1
  set A := (columnCells (ss.table.columns.getD 0 [])).filterMap cellInt with hA
  set B := (columnCells (ss.table.columns.getD 1 [])).filterMap cellInt with hB
  set s1 := oidInsertList (st.oids.getD si []) A with hs1
  set oids1 := st.oids.set si s1 with hoids1
  set s2 := oidInsertList (oids1.getD di []) B with hs2
  have hlen1 : oids1.length = st.oids.length := by simp [hoids1]
  have hlenf : (oids1.set di s2).length = st.oids.length := by simp [hoids1]
  have hcontrib : ∀ k, subContribIdx vIndex k ss =
      (if si = k then A else []) ++ (if di = k then B else []) := by
    intro k
    simp only [subContribIdx, hsl, hdl, hsli, hdli, colInts, ← hA, ← hB]
    congr 1
    · by_cases h : si = k
      · rw [if_pos (by rw [h]), if_pos h]
      · rw [if_neg (by simpa using h), if_neg h]
    · by_cases h : di = k
      · rw [if_pos (by rw [h]), if_pos h]
      · rw [if_neg (by simpa using h), if_neg h]
  have hoids : ∀ k, (oids1.set di s2).getD k [] =
      oidInsertList (st.oids.getD k []) (subContribIdx vIndex k ss) := by
    intro k
    rw [hcontrib k]
    by_cases hkdi : di = k
    · subst hkdi
      rw [setGetD_self oids1 di s2 [] (by rw [hlen1]; exact hdib), if_pos rfl, hs2]
      by_cases hksi : si = di
      · rw [if_pos hksi, hoids1, hksi, setGetD_self st.oids di s1 [] hdib, hs1, hksi,
          oidInsertList_append]
      · rw [if_neg hksi, List.nil_append, hoids1,
          setGetD_other st.oids si di s1 [] hksi]
    · rw [setGetD_other oids1 di k s2 [] hkdi, if_neg hkdi, List.append_nil]
      by_cases hksi : si = k
      · subst hksi
        rw [setGetD_self st.oids si s1 [] hsib, if_pos rfl, hs1]
      · rw [hoids1, setGetD_other st.oids si k s1 [] hksi, if_neg hksi, oidInsertList]
        rfl
  cases hmap : lookupIndex st.edge_label_to_index lbl with
  | some k =>
    have hk := hcons lbl hlbl k hmap
    subst hk
    refine ⟨⟨oids1.set di s2, setInsert st.edge_vertex_label (lbl, (sl, dl)),
      st.edge_label_to_index⟩, ?_, hlenf, hoids, ?_, ?_, ?_⟩
    · simp only [processEVSub, hsync, hlbl, hsl, hsli, hdl, hdli, hmap, hB1]
      rw [if_neg (by simp)]
      simp only [← hA, ← hs1, ← hoids1, hB2, ← hB, ← hs2]
    · intro l hl
      rw [hlbl] at hl
      cases hl
      exact hmap
    · intro l v hv
      exact hv
    · intro l v hv
      exact Or.inl hv
  | none =>
    refine ⟨⟨oids1.set di s2, setInsert st.edge_vertex_label (lbl, (sl, dl)),
      st.edge_label_to_index ++ [(lbl, labelId)]⟩, ?_, hlenf, hoids, ?_, ?_, ?_⟩
    · simp only [processEVSub, hsync, hlbl, hsl, hsli, hdl, hdli, hmap, hB1]
      simp only [← hA, ← hs1, ← hoids1, hB2, ← hB, ← hs2]
    · intro l hl
      rw [hlbl] at hl
      cases hl
      exact lookupIndex_append_self st.edge_label_to_index lbl labelId hmap
    · intro l v hv
      exact lookupIndex_append_of_some st.edge_label_to_index (lbl, labelId) l v hv
    · intro l v hv
      rcases lookupIndex_append_inv st.edge_label_to_index lbl labelId l v hv with h | ⟨rfl, rfl⟩
      · exact Or.inl h
      · exact Or.inr ⟨hlbl, rfl⟩

lemma processEVSub_mismatch (vIndex : List (String × Nat)) (labelId : Nat) (ss : SubSource)
    (st : EVState)
    (hc : cleanEVSub vIndex st.oids.length ss) (lbl : String)
    (hlbl2 : ss.meta.label = some lbl)
    (k : Nat) (hmap : lookupIndex st.edge_label_to_index lbl = some k)
    (hne : k ≠ labelId) :
    processEVSub vIndex labelId ss st = Except.error
      ⟨ErrorCode.kInvalidValueError, "Edge label is not consistent, " ++ lbl ++ ": " ++
        toString labelId ++ " vs " ++ toString k⟩ := by
  obtain ⟨hsync, ⟨lbl', hlbl⟩, ⟨sl, si, hsl, hsli, _⟩, ⟨dl, di, hdl, hdli, _⟩, _, _⟩ := hc
  simp only [processEVSub, hsync, hlbl2, hsl, hsli, hdl, hdli, hmap]
  rw [if_pos hne]

lemma loadEVSubs_spec (vIndex : List (String × Nat)) (labelId : Nat)
    (subs : List SubSource) (st : EVState)
    (hclean : ∀ ss ∈ subs, cleanEVSub vIndex st.oids.length ss)
    (hcons : ∀ ss ∈ subs, ∀ lbl, ss.meta.label = some lbl →
      ∀ k, lookupIndex st.edge_label_to_index lbl = some k → k = labelId) :
    ∃ ts st' tr, loadEVSubs vIndex labelId subs st = (Except.ok (ts, st'), tr) ∧
      st'.oids.length = st.oids.length ∧
      (∀ k, st'.oids.getD k [] = oidInsertList (st.oids.getD k [])
        (subs.flatMap (fun ss => subContribIdx vIndex k ss))) ∧
      (∀ l, (∃ ss ∈ subs, ss.meta.label = some l) →
        lookupIndex st'.edge_label_to_index l = some labelId) ∧
      (∀ l v, lookupIndex st.edge_label_to_index l = some v →
        lookupIndex st'.edge_label_to_index l = some v) ∧
      (∀ l v, lookupIndex st'.edge_label_to_index l = some v →
        lookupIndex st.edge_label_to_index l = some v ∨
          ((∃ ss ∈ subs, ss.meta.label = some l) ∧ v = labelId)) := by
  induction subs generalizing st with
  | nil =>
    refine ⟨[], st, [], rfl, rfl, fun k => rfl, ?_, fun l v hv => hv, fun l v hv => Or.inl hv⟩
    rintro l ⟨ss, hss, -⟩
    simp at hss
  | cons ss rest ih =>
    obtain ⟨st1, heq, hlen1, hoids1, hlab1, hpres1, hinv1⟩ :=
      processEVSub_spec vIndex labelId ss st (hclean ss (List.mem_cons_self _ _))
        (fun lbl hl k hk => hcons ss (List.mem_cons_self _ _) lbl hl k hk)
    have hclean1 : ∀ x ∈ rest, cleanEVSub vIndex st1.oids.length x := by
      intro x hx
      rw [hlen1]
      exact hclean x (List.mem_cons_of_mem _ hx)
    have hcons1 : ∀ x ∈ rest, ∀ lbl, x.meta.label = some lbl →
        ∀ k, lookupIndex st1.edge_label_to_index lbl = some k → k = labelId := by
      intro x hx lbl hl k hk
      rcases hinv1 lbl k hk with h | ⟨_, rfl⟩
      · exact hcons x (List.mem_cons_of_mem _ hx) lbl hl k h
      · rfl
    obtain ⟨ts2, st2, tr2, heq2, hlen2, hoids2, hlab2, hpres2, hinv2⟩ := ih st1 hclean1 hcons1
    refine ⟨ss.table :: ts2, st2, subSourceEvents ++ tr2, ?_, hlen2.trans hlen1, ?_, ?_, ?_, ?_⟩
    · simp only [loadEVSubs, heq, heq2]
    · intro k
      rw [hoids2 k, hoids1 k, List.flatMap_cons, oidInsertList_append]
    · rintro l ⟨x, hx, hxl⟩
      rcases List.mem_cons.mp hx with rfl | hmem
      · exact hpres2 l labelId (hlab1 l hxl)
      · exact hlab2 l ⟨x, hmem, hxl⟩
    · intro l v hv
      exact hpres2 l v (hpres1 l v hv)
    · intro l v hv
      rcases hinv2 l v hv with h1 | ⟨⟨x, hx, hxl⟩, rfl⟩
      · rcases hinv1 l v h1 with h2 | ⟨hl, rfl⟩
        · exact Or.inl h2
        · exact Or.inr ⟨⟨ss, List.mem_cons_self _ _, hl⟩, rfl⟩
      · exact Or.inr ⟨⟨x, List.mem_cons_of_mem _ hx, hxl⟩, rfl⟩

lemma loadEVSubs_mismatch (vIndex : List (String × Nat)) (labelId : Nat)
    (subs : List SubSource) (st : EVState)
    (hclean : ∀ ss ∈ subs, cleanEVSub vIndex st.oids.length ss)
    (hconf : ∃ ss ∈ subs, ∃ lbl, ss.meta.label = some lbl ∧
      ∃ k, lookupIndex st.edge_label_to_index lbl = some k ∧ k ≠ labelId) :
    ∃ e tr, loadEVSubs vIndex labelId subs st = (Except.error e, tr) ∧
      e.code = ErrorCode.kInvalidValueError := by
  induction subs generalizing st with
  | nil =>
    obtain ⟨ss, hss, -⟩ := hconf
    simp at hss
  | cons ss rest ih =>
    by_cases hhead : ∃ lbl, ss.meta.label = some lbl ∧
        ∃ k, lookupIndex st.edge_label_to_index lbl = some k ∧ k ≠ labelId
    · obtain ⟨lbl, hl, k, hk, hkne⟩ := hhead
      have hm := processEVSub_mismatch vIndex labelId ss st
        (hclean ss (List.mem_cons_self _ _)) lbl hl k hk hkne
      refine ⟨⟨ErrorCode.kInvalidValueError, "Edge label is not consistent, " ++ lbl ++ ": " ++
        toString labelId ++ " vs " ++ toString k⟩, subSourceEvents, ?_, rfl⟩
      simp only [loadEVSubs, hm]
    · push_neg at hhead
      obtain ⟨st1, heq, hlen1, _, _, hpres1, _⟩ :=
        processEVSub_spec vIndex labelId ss st (hclean ss (List.mem_cons_self _ _))
          (fun lbl hl k hk => hhead lbl hl k hk)
      have hclean1 : ∀ x ∈ rest, cleanEVSub vIndex st1.oids.length x := by
        intro x hx
        rw [hlen1]
        exact hclean x (List.mem_cons_of_mem _ hx)
      have hconf1 : ∃ x ∈ rest, ∃ lbl, x.meta.label = some lbl ∧
          ∃ k, lookupIndex st1.edge_label_to_index lbl = some k ∧ k ≠ labelId := by
        obtain ⟨x, hx, lbl, hl, k, hk, hkne⟩ := hconf
        rcases List.mem_cons.mp hx with rfl | hmem
        · exact absurd (hhead lbl hl k hk) hkne
        · exact ⟨x, hmem, lbl, hl, k, hpres1 lbl k hk, hkne⟩
      obtain ⟨e, tr, heq2, hcode⟩ := ih st1 hclean1 hconf1
      refine ⟨e, subSourceEvents ++ tr, ?_, hcode⟩
      simp only [loadEVSubs, heq, heq2]

lemma loadEVFiles_spec (vIndex : List (String × Nat)) (assign : String → Nat)
    (n : Nat) (files : List (List SubSource)) (st : EVState)
    (hclean : ∀ subs ∈ files, ∀ ss ∈ subs, cleanEVSub vIndex st.oids.length ss)
    (hassign : ∀ i, i < files.length → ∀ ss ∈ files.getD i [], ∀ lbl,
      ss.meta.label = some lbl → assign lbl = n + i)
    (hmapinv : ∀ l v, lookupIndex st.edge_label_to_index l = some v → assign l = v) :
    ∃ tss st' tr, loadEVFiles vIndex n files st = (Except.ok (tss, st'), tr) ∧
      st'.oids.length = st.oids.length ∧
      (∀ k, st'.oids.getD k [] = oidInsertList (st.oids.getD k [])
        (files.flatMap (fun subs => subs.flatMap (fun ss => subContribIdx vIndex k ss)))) := by
  induction files generalizing n st with
  | nil => exact ⟨[], st, [], rfl, rfl, fun k => rfl⟩
  | cons subs rest ih =>
    have hcons0 : ∀ ss ∈ subs, ∀ lbl, ss.meta.label = some lbl →
        ∀ k, lookupIndex st.edge_label_to_index lbl = some k → k = n := by
      intro ss hss lbl hl k hk
      have h1 : assign lbl = n + 0 := hassign 0 (by simp) ss (by simpa using hss) lbl hl
      have h2 : assign lbl = k := hmapinv lbl k hk
      omega
    obtain ⟨ts1, st1, tr1, heq1, hlen1, hoids1, hlab1, _, hinv1⟩ :=
      loadEVSubs_spec vIndex n subs st (hclean subs (List.mem_cons_self _ _)) hcons0
    have hclean1 : ∀ sgroup ∈ rest, ∀ ss ∈ sgroup, cleanEVSub vIndex st1.oids.length ss := by
      intro sgroup hg ss hss
      rw [hlen1]
      exact hclean sgroup (List.mem_cons_of_mem _ hg) ss hss
    have hassign1 : ∀ i, i < rest.length → ∀ ss ∈ rest.getD i [], ∀ lbl,
        ss.meta.label = some lbl → assign lbl = (n + 1) + i := by
      intro i hi ss hss lbl hl
      have := hassign (i + 1) (by simpa using Nat.succ_lt_succ hi) ss
        (by simpa [List.getD_cons_succ] using hss) lbl hl
      omega
    have hmapinv1 : ∀ l v, lookupIndex st1.edge_label_to_index l = some v → assign l = v := by
      intro l v hv
      rcases hinv1 l v hv with h | ⟨⟨ss, hss, hl⟩, rfl⟩
      · exact hmapinv l v h
      · have := hassign 0 (by simp) ss (by simpa using hss) l hl
        omega
    obtain ⟨tss2, st2, tr2, heq2, hlen2, hoids2⟩ := ih (n + 1) st1 hclean1 hassign1 hmapinv1
    refine ⟨ts1 :: tss2, st2, tr1 ++ tr2, ?_, hlen2.trans hlen1, ?_⟩
    · simp only [loadEVFiles, heq1, heq2]
    · intro k
      rw [hoids2 k, hoids1 k, List.flatMap_cons, oidInsertList_append]

lemma loadEVFiles_mismatch (vIndex : List (String × Nat))
    (n : Nat) (files : List (List SubSource)) (st : EVState)
    (hclean : ∀ subs ∈ files, ∀ ss ∈ subs, cleanEVSub vIndex st.oids.length ss)
    (hconf :
      (∃ i, i < files.length ∧ ∃ ss ∈ files.getD i [], ∃ lbl, ss.meta.label = some lbl ∧
        ∃ k, lookupIndex st.edge_label_to_index lbl = some k ∧ k ≠ n + i) ∨
      (∃ i j, i < files.length ∧ j < files.length ∧ i ≠ j ∧ ∃ lbl,
        (∃ ss ∈ files.getD i [], ss.meta.label = some lbl) ∧
        (∃ ss ∈ files.getD j [], ss.meta.label = some lbl))) :
    ∃ e tr, loadEVFiles vIndex n files st = (Except.error e, tr) ∧
      e.code = ErrorCode.kInvalidValueError := by
  induction files generalizing n st with
  | nil =>
    rcases hconf with ⟨i, hi, -⟩ | ⟨i, j, hi, -⟩
    · simp at hi
    · simp at hi
  | cons subs rest ih =>
    by_cases hhead : ∃ ss ∈ subs, ∃ lbl, ss.meta.label = some lbl ∧
        ∃ k, lookupIndex st.edge_label_to_index lbl = some k ∧ k ≠ n
    · obtain ⟨e, tr, heq, hcode⟩ := loadEVSubs_mismatch vIndex n subs st
        (hclean subs (List.mem_cons_self _ _)) hhead
      refine ⟨e, tr, ?_, hcode⟩
      simp only [loadEVFiles, heq]
    · push_neg at hhead
      have hcons0 : ∀ ss ∈ subs, ∀ lbl, ss.meta.label = some lbl →
          ∀ k, lookupIndex st.edge_label_to_index lbl = some k → k = n :=
        fun ss hss lbl hl k hk => hhead ss hss lbl hl k hk
      obtain ⟨ts1, st1, tr1, heq1, hlen1, _, hlab1, hpres1, hinv1⟩ :=
        loadEVSubs_spec vIndex n subs st (hclean subs (List.mem_cons_self _ _)) hcons0
      have hclean1 : ∀ sgroup ∈ rest, ∀ ss ∈ sgroup, cleanEVSub vIndex st1.oids.length ss := by
        intro sgroup hg ss hss
        rw [hlen1]
        exact hclean sgroup (List.mem_cons_of_mem _ hg) ss hss
      have hconf1 :
          (∃ i, i < rest.length ∧ ∃ ss ∈ rest.getD i [], ∃ lbl, ss.meta.label = some lbl ∧
            ∃ k, lookupIndex st1.edge_label_to_index lbl = some k ∧ k ≠ (n + 1) + i) ∨
          (∃ i j, i < rest.length ∧ j < rest.length ∧ i ≠ j ∧ ∃ lbl,
            (∃ ss ∈ rest.getD i [], ss.meta.label = some lbl) ∧
            (∃ ss ∈ rest.getD j [], ss.meta.label = some lbl)) := by
        rcases hconf with ⟨i, hi, ss, hss, lbl, hl, k, hk, hkne⟩ | hpair
        · cases i with
          | zero =>
            exact absurd (hhead ss (by simpa using hss) lbl hl k hk)
              (by simpa using hkne)
          | succ i' =>
            refine Or.inl ⟨i', by simpa using Nat.lt_of_succ_lt_succ hi, ss,
              by simpa [List.getD_cons_succ] using hss, lbl, hl, k, hpres1 lbl k hk, ?_⟩
            omega
        · obtain ⟨i, j, hi, hj, hij, lbl, ⟨ssi, hssi, hli⟩, ⟨ssj, hssj, hlj⟩⟩ := hpair
          rcases Nat.eq_zero_or_pos i with rfl | hipos
          · -- labels of the head group are now mapped to n; group j conflicts
            obtain ⟨j', rfl⟩ : ∃ j', j = j' + 1 := ⟨j - 1, by omega⟩
            refine Or.inl ⟨j', by simpa using Nat.lt_of_succ_lt_succ hj, ssj,
              by simpa [List.getD_cons_succ] using hssj, lbl, hlj, n, ?_, by omega⟩
            exact hlab1 lbl ⟨ssi, by simpa using hssi, hli⟩
          · rcases Nat.eq_zero_or_pos j with rfl | hjpos
            · obtain ⟨i', rfl⟩ : ∃ i', i = i' + 1 := ⟨i - 1, by omega⟩
              refine Or.inl ⟨i', by simpa using Nat.lt_of_succ_lt_succ hi, ssi,
                by simpa [List.getD_cons_succ] using hssi, lbl, hli, n, ?_, by omega⟩
              exact hlab1 lbl ⟨ssj, by simpa using hssj, hlj⟩
            · obtain ⟨i', rfl⟩ : ∃ i', i = i' + 1 := ⟨i - 1, by omega⟩
              obtain ⟨j', rfl⟩ : ∃ j', j = j' + 1 := ⟨j - 1, by omega⟩
              exact Or.inr ⟨i', j', by simpa using Nat.lt_of_succ_lt_succ hi,
                by simpa using Nat.lt_of_succ_lt_succ hj, by omega, lbl,
                ⟨ssi, by simpa [List.getD_cons_succ] using hssi, hli⟩,
                ⟨ssj, by simpa [List.getD_cons_succ] using hssj, hlj⟩⟩
      obtain ⟨e, tr, heq2, hcode⟩ := ih (n + 1) st1 hclean1 hconf1
      refine ⟨e, tr1 ++ tr, ?_, hcode⟩
      simp only [loadEVFiles, heq1, heq2]

lemma discoverLabels_ok (l : List SubSource)
    (h : ∀ ss ∈ l, ss.meta.src_label.isSome ∧ ss.meta.dst_label.isSome) :
    ∃ found, discoverLabels l = Except.ok found ∧
      (∀ n, n ∈ found ↔
        ∃ ss ∈ l, ss.meta.src_label = some n ∨ ss.meta.dst_label = some n) := by
  induction l with
  | nil =>
    refine ⟨[], rfl, fun n => ?_⟩
    simp
  | cons ss rest ih =>
    obtain ⟨sl, hsl⟩ := Option.isSome_iff_exists.mp (h ss (List.mem_cons_self _ _)).1
    obtain ⟨dl, hdl⟩ := Option.isSome_iff_exists.mp (h ss (List.mem_cons_self _ _)).2
    obtain ⟨found, hfound, hiff⟩ := ih (fun x hx => h x (List.mem_cons_of_mem _ hx))
    refine ⟨sl :: dl :: found, ?_, fun n => ?_⟩
    · simp only [discoverLabels, hsl, hdl, hfound, Except.map]
    · constructor
      · intro hn
        rcases List.mem_cons.mp hn with rfl | hn2
        · exact ⟨ss, List.mem_cons_self _ _, Or.inl hsl⟩
        · rcases List.mem_cons.mp hn2 with rfl | hn3
          · exact ⟨ss, List.mem_cons_self _ _, Or.inr hdl⟩
          · obtain ⟨x, hx, hxo⟩ := (hiff n).mp hn3
            exact ⟨x, List.mem_cons_of_mem _ hx, hxo⟩
      · rintro ⟨x, hx, hxo⟩
        rcases List.mem_cons.mp hx with rfl | hmem
        · rcases hxo with hs | hd
          · rw [hsl] at hs
            have : n = sl := (Option.some.inj hs).symm
            exact this ▸ List.mem_cons_self _ _
          · rw [hdl] at hd
            have : n = dl := (Option.some.inj hd).symm
            exact this ▸ List.mem_cons_of_mem _ (List.mem_cons_self _ _)
        · exact List.mem_cons_of_mem _ (List.mem_cons_of_mem _ ((hiff n).mpr ⟨x, hmem, hxo⟩))

lemma sortedLabelSet_nodup (names : List String) : (sortedLabelSet names).Nodup :=
  ((List.perm_insertionSort _ names.dedup).nodup_iff).mpr (List.nodup_dedup names)

lemma sortedLabelSet_sorted (names : List String) :
    (sortedLabelSet names).Sorted (fun a b => a ≤ b) :=
  List.sorted_insertionSort _ names.dedup

lemma sortedLabelSet_mem (names : List String) (n : String) :
    n ∈ sortedLabelSet names ↔ n ∈ names := by
  unfold sortedLabelSet
  rw [List.Perm.mem_iff (List.perm_insertionSort _ names.dedup), List.mem_dedup]

lemma lookup_vIndexOfAux (names : List String) (i : Nat) (n : String) :
    lookupIndex (vIndexOfAux i names) n =
      if n ∈ names then some (i + names.indexOf n) else none := by
  induction names generalizing i with
  | nil => simp [vIndexOfAux, lookupIndex]
  | cons m rest ih =>
    by_cases hm : m = n
    · subst hm
      rw [vIndexOfAux, lookupIndex_cons_pos (m, i) _ m rfl,
        if_pos (List.mem_cons_self _ _)]
      simp [List.indexOf_cons_self]
    · rw [vIndexOfAux, lookupIndex_cons_neg (m, i) _ n hm, ih (i + 1)]
      by_cases hn : n ∈ rest
      · rw [if_pos hn, if_pos (List.mem_cons_of_mem _ hn), List.indexOf_cons_ne _ hm]
        congr 1
        omega
      · rw [if_neg hn, if_neg (by
          rw [List.mem_cons]
          push_neg
          exact ⟨fun hc => hm hc.symm, hn⟩)]

lemma lookup_vIndexOf (names : List String) (n : String) :
    lookupIndex (vIndexOf names) n =
      if n ∈ names then some (names.indexOf n) else none := by
  rw [vIndexOf, lookup_vIndexOfAux names 0 n]
  split
  · simp
  · rfl

lemma lookup_vIndexOf_bound (names : List String) (n : String) (k : Nat)
    (h : lookupIndex (vIndexOf names) n = some k) : k < names.length := by
  rw [lookup_vIndexOf] at h
  split at h
  · next hmem =>
    cases h
    exact List.indexOf_lt_length.mpr hmem
  · cases h

lemma lookup_vIndexOf_iff (names : List String) (hnodup : names.Nodup) (n : String)
    (hn : n ∈ names) (k : Nat) (hk : k < names.length) :
    (lookupIndex (vIndexOf names) n = some k) ↔ names.getD k "" = n := by
  rw [lookup_vIndexOf, if_pos hn]
  have hidx : names.indexOf n < names.length := List.indexOf_lt_length.mpr hn
  constructor
  · intro h
    cases h
    rw [getD_eq_getElem' _ _ _ hidx]
    exact List.getElem_indexOf hidx
  · intro h
    rw [getD_eq_getElem' _ _ _ hk] at h
    congr 1
    have h3 : names[names.indexOf n] = n := List.getElem_indexOf hidx
    have h4 : names.get ⟨names.indexOf n, hidx⟩ = names.get ⟨k, hk⟩ := by
      rw [List.get_eq_getElem, List.get_eq_getElem, h3, h]
    exact congrArg Fin.val ((List.Nodup.get_inj_iff hnodup).mp h4)

lemma flatMap_congr_mem {α β : Type} (l : List α) (f g : α → List β)
    (h : ∀ x ∈ l, f x = g x) : l.flatMap f = l.flatMap g := by
  induction l with
  | nil => rfl
  | cons x rest ih =>
    rw [List.flatMap_cons, List.flatMap_cons, h x (List.mem_cons_self _ _),
      ih (fun y hy => h y (List.mem_cons_of_mem _ hy))]

lemma flatMap_flatten_eq {α β : Type} (files : List (List α)) (f : α → List β) :
    files.flatMap (fun l => l.flatMap f) = files.flatten.flatMap f := by
  induction files with
  | nil => rfl
  | cons l rest ih =>
    rw [List.flatMap_cons, List.flatten_cons, List.flatMap_append, ih]

/-- The OIDs the claim says the synthetic vertex table of a label must
hold: every endpoint value appearing under that label in the src or dst
column of any scanned sub-source, in scan order. -/
def specEndpointOids (files : List (List SubSource)) (name : String) : List Int :=
  files.flatten.flatMap (fun ss =>
    (if ss.meta.src_label = some name then colInts ss.table 0 else []) ++
    (if ss.meta.dst_label = some name then colInts ss.table 1 else []))

lemma subContribIdx_eq_name (names : List String) (hnodup : names.Nodup)
    (k : Nat) (hk : k < names.length) (ss : SubSource)
    (hsrc : ∀ sl, ss.meta.src_label = some sl → sl ∈ names)
    (hdst : ∀ dl, ss.meta.dst_label = some dl → dl ∈ names) :
    subContribIdx (vIndexOf names) k ss =
      (if ss.meta.src_label = some (names.getD k "") then colInts ss.table 0 else []) ++
      (if ss.meta.dst_label = some (names.getD k "") then colInts ss.table 1 else []) := by
  unfold subContribIdx
  congr 1
  · cases hs : ss.meta.src_label with
    | none => simp
    | some sl =>
      show (if lookupIndex (vIndexOf names) sl = some k then colInts ss.table 0 else []) = _
      by_cases h : names.getD k "" = sl
      · rw [if_pos ((lookup_vIndexOf_iff names hnodup sl (hsrc sl hs) k hk).mpr h),
          if_pos (by rw [h])]
      · rw [if_neg (fun hc => h ((lookup_vIndexOf_iff names hnodup sl (hsrc sl hs) k hk).mp hc)),
          if_neg (by intro hc; exact h (Option.some.inj hc).symm)]
  · cases hd : ss.meta.dst_label with
    | none => simp
    | some dl =>
      show (if lookupIndex (vIndexOf names) dl = some k then colInts ss.table 1 else []) = _
      by_cases h : names.getD k "" = dl
      · rw [if_pos ((lookup_vIndexOf_iff names hnodup dl (hdst dl hd) k hk).mpr h),
          if_pos (by rw [h])]
      · rw [if_neg (fun hc => h ((lookup_vIndexOf_iff names hnodup dl (hdst dl hd) k hk).mp hc)),
          if_neg (by intro hc; exact h (Option.some.inj hc).symm)]

lemma mapConst_getD_nil (names : List String) (k : Nat) :
    ((names.map (fun _ => ([] : List Int))).getD k []) = [] := by
  by_cases hk : k < names.length
  · rw [getD_eq_getElem' _ _ _ (by simpa using hk)]
    simp
  · rw [List.getD_eq_default _ _ (by simpa using Nat.le_of_not_lt hk)]

/-- C5: in vertex-less mode, under the hypotheses that every sub-source
carries its three metadata keys, the schema sync returns each table
unchanged (the gathered schemas already agree), the endpoint columns hold
integers, and each edge label name appears in only one file group (the
assignment function witnesses this), loadEVTablesFromEFiles succeeds and:
the discovered vertex label names are numbered in sorted, duplicate-free
order by consecutive indices (vIndexOf), identically for any worker
running on the same efiles since the computation is a pure function of
them; and the synthesized vertex table of label index k is a single-column
table named after the label whose values are exactly the distinct endpoint
OIDs appearing under that label in the src/dst columns of the scanned
sub-sources — no duplicates, no omissions. -/
theorem loadEV_induced_vertex_tables (files : List (List SubSource))
    (hmeta : ∀ ss ∈ files.flatten, ss.meta.src_label.isSome ∧ ss.meta.dst_label.isSome)
    (hlbl : ∀ ss ∈ files.flatten, ∃ l, ss.meta.label = some l)
    (hsync : ∀ ss ∈ files.flatten, SyncSchema (some ss.table) ss.gathered = Except.ok ss.table)
    (hty : ∀ ss ∈ files.flatten,
      (∀ c ∈ columnCells (ss.table.columns.getD 0 []), (cellInt c).isSome) ∧
      (∀ c ∈ columnCells (ss.table.columns.getD 1 []), (cellInt c).isSome))
    (assign : String → Nat)
    (hassign : ∀ i, i < files.length → ∀ ss ∈ files.getD i [], ∀ lbl,
      ss.meta.label = some lbl → assign lbl = i) :
    ∃ vtables etables names vIndex st tr,
      loadEVTablesFromEFiles files = (Except.ok (vtables, etables, names, vIndex, st), tr) ∧
      names.Nodup ∧
      names.Sorted (fun a b => a ≤ b) ∧
      (∀ n, n ∈ names ↔
        ∃ ss ∈ files.flatten, ss.meta.src_label = some n ∨ ss.meta.dst_label = some n) ∧
      vIndex = vIndexOf names ∧
      vtables.length = names.length ∧
      (∀ k, k < names.length →
        vtables.getD k ⟨[], []⟩ =
          ⟨[⟨names.getD k "", ArrowType.int64⟩],
           [[⟨ArrowType.int64, (st.oids.getD k []).map CellValue.vInt⟩]]⟩ ∧
        (st.oids.getD k []).Nodup ∧
        (st.oids.getD k []).toFinset =
          (specEndpointOids files (names.getD k "")).toFinset) := by
  obtain ⟨found, hfound, hiff⟩ := discoverLabels_ok files.flatten hmeta
  have hnodup := sortedLabelSet_nodup found
  have hsorted := sortedLabelSet_sorted found
  have hmemnames : ∀ n, n ∈ sortedLabelSet found ↔
      ∃ ss ∈ files.flatten, ss.meta.src_label = some n ∨ ss.meta.dst_label = some n :=
    fun n => (sortedLabelSet_mem found n).trans (hiff n)
  have hlen0 : (⟨(sortedLabelSet found).map (fun _ => []), [], []⟩ : EVState).oids.length
      = (sortedLabelSet found).length := by simp
  have hclean : ∀ subs ∈ files, ∀ ss ∈ subs,
      cleanEVSub (vIndexOf (sortedLabelSet found))
        (⟨(sortedLabelSet found).map (fun _ => []), [], []⟩ : EVState).oids.length ss := by
    intro subs hsubs ss hss
    have hssf : ss ∈ files.flatten := List.mem_flatten.mpr ⟨subs, hsubs, hss⟩
    obtain ⟨hs1, hs2⟩ := hmeta ss hssf
    obtain ⟨sl, hsl⟩ := Option.isSome_iff_exists.mp hs1
    obtain ⟨dl, hdl⟩ := Option.isSome_iff_exists.mp hs2
    have hslmem : sl ∈ sortedLabelSet found := (hmemnames sl).mpr ⟨ss, hssf, Or.inl hsl⟩
    have hdlmem : dl ∈ sortedLabelSet found := (hmemnames dl).mpr ⟨ss, hssf, Or.inr hdl⟩
    refine ⟨hsync ss hssf, hlbl ss hssf,
      ⟨sl, (sortedLabelSet found).indexOf sl, hsl, ?_, ?_⟩,
      ⟨dl, (sortedLabelSet found).indexOf dl, hdl, ?_, ?_⟩,
      (hty ss hssf).1, (hty ss hssf).2⟩
    · rw [lookup_vIndexOf, if_pos hslmem]
    · rw [hlen0]
      exact List.indexOf_lt_length.mpr hslmem
    · rw [lookup_vIndexOf, if_pos hdlmem]
    · rw [hlen0]
      exact List.indexOf_lt_length.mpr hdlmem
  obtain ⟨tss, stf, tr, heqF, hlenF, hoidsF⟩ :=
    loadEVFiles_spec (vIndexOf (sortedLabelSet found)) assign 0 files
      (⟨(sortedLabelSet found).map (fun _ => []), [], []⟩ : EVState) hclean
      (by
        intro i hi ss hss lbl hl
        rw [Nat.zero_add]
        exact hassign i hi ss hss lbl hl)
      (by intro l v hv; simp [lookupIndex] at hv)
  have hsrcmem : ∀ ss ∈ files.flatten, ∀ sl, ss.meta.src_label = some sl →
      sl ∈ sortedLabelSet found :=
    fun ss hss sl hsl => (hmemnames sl).mpr ⟨ss, hss, Or.inl hsl⟩
  have hdstmem : ∀ ss ∈ files.flatten, ∀ dl, ss.meta.dst_label = some dl →
      dl ∈ sortedLabelSet found :=
    fun ss hss dl hdl => (hmemnames dl).mpr ⟨ss, hss, Or.inr hdl⟩
  refine ⟨synthesizeVTables (sortedLabelSet found) stf.oids, tss, sortedLabelSet found,
    vIndexOf (sortedLabelSet found), stf, tr, ?_, hnodup, hsorted, hmemnames, rfl,
    by simp [synthesizeVTables], ?_⟩
  · simp only [loadEVTablesFromEFiles, hfound, heqF]
  · intro k hk
    have hoidk : stf.oids.getD k [] =
        oidInsertList [] (files.flatMap (fun subs => subs.flatMap
          (fun ss => subContribIdx (vIndexOf (sortedLabelSet found)) k ss))) := by
      rw [hoidsF k]
      congr 1
      exact mapConst_getD_nil (sortedLabelSet found) k
    refine ⟨?_, ?_, ?_⟩
    · unfold synthesizeVTables
      rw [getD_map_range' _ _ _ _ hk]
    · rw [hoidk]
      exact oidInsertList_nodup _ [] List.nodup_nil
    · rw [hoidk, oidInsertList_toFinset, flatMap_flatten_eq,
        flatMap_congr_mem files.flatten _ _
          (fun ss hss => subContribIdx_eq_name (sortedLabelSet found) hnodup k hk ss
            (hsrcmem ss hss) (hdstmem ss hss))]
      simp [specEndpointOids]

/-- C5 witness: scenario B of the specification: a single edge label
"follows" with edges (10,20) and (20,30) and no vertex file; the induced
vertex set of the single discovered label "v" is exactly {10, 20, 30}. -/
theorem loadEV_induced_vertex_tables_witness :
    ∃ vtables etables names vIndex st tr,
      loadEVTablesFromEFiles
        [[⟨⟨some "follows", some "v", some "v"⟩,
           ⟨[⟨"s", ArrowType.int64⟩, ⟨"d", ArrowType.int64⟩],
            [[⟨ArrowType.int64, [CellValue.vInt 10, CellValue.vInt 20]⟩],
             [⟨ArrowType.int64, [CellValue.vInt 20, CellValue.vInt 30]⟩]]⟩,
           [some [⟨"s", ArrowType.int64⟩, ⟨"d", ArrowType.int64⟩]]⟩]] =
        (Except.ok (vtables, etables, names, vIndex, st), tr) ∧
      names.Nodup ∧
      names.Sorted (fun a b => a ≤ b) ∧
      (∀ n, n ∈ names ↔
        ∃ ss ∈ ([[⟨⟨some "follows", some "v", some "v"⟩,
           ⟨[⟨"s", ArrowType.int64⟩, ⟨"d", ArrowType.int64⟩],
            [[⟨ArrowType.int64, [CellValue.vInt 10, CellValue.vInt 20]⟩],
             [⟨ArrowType.int64, [CellValue.vInt 20, CellValue.vInt 30]⟩]]⟩,
           [some [⟨"s", ArrowType.int64⟩, ⟨"d", ArrowType.int64⟩]]⟩]] :
             List (List SubSource)).flatten,
          ss.meta.src_label = some n ∨ ss.meta.dst_label = some n) ∧
      vIndex = vIndexOf names ∧
      vtables.length = names.length ∧
      (∀ k, k < names.length →
        vtables.getD k ⟨[], []⟩ =
          ⟨[⟨names.getD k "", ArrowType.int64⟩],
           [[⟨ArrowType.int64, (st.oids.getD k []).map CellValue.vInt⟩]]⟩ ∧
        (st.oids.getD k []).Nodup ∧
        (st.oids.getD k []).toFinset =
          (specEndpointOids
            [[⟨⟨some "follows", some "v", some "v"⟩,
               ⟨[⟨"s", ArrowType.int64⟩, ⟨"d", ArrowType.int64⟩],
                [[⟨ArrowType.int64, [CellValue.vInt 10, CellValue.vInt 20]⟩],
                 [⟨ArrowType.int64, [CellValue.vInt 20, CellValue.vInt 30]⟩]]⟩,
               [some [⟨"s", ArrowType.int64⟩, ⟨"d", ArrowType.int64⟩]]⟩]]
            (names.getD k "")).toFinset) :=
  loadEV_induced_vertex_tables
    [[⟨⟨some "follows", some "v", some "v"⟩,
       ⟨[⟨"s", ArrowType.int64⟩, ⟨"d", ArrowType.int64⟩],
        [[⟨ArrowType.int64, [CellValue.vInt 10, CellValue.vInt 20]⟩],
         [⟨ArrowType.int64, [CellValue.vInt 20, CellValue.vInt 30]⟩]]⟩,
       [some [⟨"s", ArrowType.int64⟩, ⟨"d", ArrowType.int64⟩]]⟩]]
    (by decide)
    (by
      intro ss hss
      simp only [List.flatten, List.append_nil, List.mem_cons, List.not_mem_nil,
        or_false, List.mem_singleton] at hss
      subst hss
      exact ⟨"follows", rfl⟩)
    (by decide)
    (by decide)
    (fun _ => 0)
    (by
      intro i hi ss hss lbl hl
      have : i = 0 := by simpa using hi
      exact this.symm)

/-- C6 (amended): the two table-acquisition paths treat a label-to-index
mismatch differently. In vertex-less mode, whenever two different file
groups declare the same edge label name (well-formed metadata, identity
schema sync, integer endpoint columns), loadEVTablesFromEFiles fails with
kInvalidValueError. In the vertex-file mode, loadEdgeTables performs no
such check: with every sub-source passing its metadata checks it succeeds
unconditionally, the assignment silently overwriting any earlier index of
the same label. -/
theorem edge_label_consistency :
    (∀ files : List (List SubSource),
      (∀ ss ∈ files.flatten, ss.meta.src_label.isSome ∧ ss.meta.dst_label.isSome) →
      (∀ ss ∈ files.flatten, ∃ l, ss.meta.label = some l) →
      (∀ ss ∈ files.flatten, SyncSchema (some ss.table) ss.gathered = Except.ok ss.table) →
      (∀ ss ∈ files.flatten,
        (∀ c ∈ columnCells (ss.table.columns.getD 0 []), (cellInt c).isSome) ∧
        (∀ c ∈ columnCells (ss.table.columns.getD 1 []), (cellInt c).isSome)) →
      (∃ i j, i < files.length ∧ j < files.length ∧ i ≠ j ∧ ∃ lbl,
        (∃ ss ∈ files.getD i [], ss.meta.label = some lbl) ∧
        (∃ ss ∈ files.getD j [], ss.meta.label = some lbl)) →
      ∃ e tr, loadEVTablesFromEFiles files = (Except.error e, tr) ∧
        e.code = ErrorCode.kInvalidValueError)
    ∧ (∀ (vIndex : List (String × Nat)) (files : List (List SubSource)),
      (∀ subs ∈ files, ∀ ss ∈ subs, cleanEdgeSub vIndex ss) →
      ∃ r tr, loadEdgeTables vIndex files = (Except.ok r, tr)) := by
  constructor
  · intro files hmeta hlbl hsync hty hpair
    obtain ⟨found, hfound, hiff⟩ := discoverLabels_ok files.flatten hmeta
    have hmemnames : ∀ n, n ∈ sortedLabelSet found ↔
        ∃ ss ∈ files.flatten, ss.meta.src_label = some n ∨ ss.meta.dst_label = some n :=
      fun n => (sortedLabelSet_mem found n).trans (hiff n)
    have hlen0 : (⟨(sortedLabelSet found).map (fun _ => []), [], []⟩ : EVState).oids.length
        = (sortedLabelSet found).length := by simp
    have hclean : ∀ subs ∈ files, ∀ ss ∈ subs,
        cleanEVSub (vIndexOf (sortedLabelSet found))
          (⟨(sortedLabelSet found).map (fun _ => []), [], []⟩ : EVState).oids.length ss := by
      intro subs hsubs ss hss
      have hssf : ss ∈ files.flatten := List.mem_flatten.mpr ⟨subs, hsubs, hss⟩
      obtain ⟨hs1, hs2⟩ := hmeta ss hssf
      obtain ⟨sl, hsl⟩ := Option.isSome_iff_exists.mp hs1
      obtain ⟨dl, hdl⟩ := Option.isSome_iff_exists.mp hs2
      have hslmem : sl ∈ sortedLabelSet found := (hmemnames sl).mpr ⟨ss, hssf, Or.inl hsl⟩
      have hdlmem : dl ∈ sortedLabelSet found := (hmemnames dl).mpr ⟨ss, hssf, Or.inr hdl⟩
      refine ⟨hsync ss hssf, hlbl ss hssf,
        ⟨sl, (sortedLabelSet found).indexOf sl, hsl, ?_, ?_⟩,
        ⟨dl, (sortedLabelSet found).indexOf dl, hdl, ?_, ?_⟩,
        (hty ss hssf).1, (hty ss hssf).2⟩
      · rw [lookup_vIndexOf, if_pos hslmem]
      · rw [hlen0]
        exact List.indexOf_lt_length.mpr hslmem
      · rw [lookup_vIndexOf, if_pos hdlmem]
      · rw [hlen0]
        exact List.indexOf_lt_length.mpr hdlmem
    obtain ⟨e, tr, heqE, hcode⟩ :=
      loadEVFiles_mismatch (vIndexOf (sortedLabelSet found)) 0 files
        (⟨(sortedLabelSet found).map (fun _ => []), [], []⟩ : EVState) hclean (Or.inr hpair)
    refine ⟨e, tr, ?_, hcode⟩
    simp only [loadEVTablesFromEFiles, hfound, heqE]
  · intro vIndex files hc
    obtain ⟨tss, st', tr, heq⟩ := loadEdgeFiles_ok vIndex 0 files ⟨[], []⟩ hc
    exact ⟨(tss, st'), tr, heq⟩

/-- C6 witness: the amended dichotomy at concrete inputs: two file groups
sharing the label "e0" fail in vertex-less mode with kInvalidValueError,
while loadEdgeTables succeeds on a clean input. -/
theorem edge_label_consistency_witness :
    (∃ e tr, loadEVTablesFromEFiles
        [[⟨⟨some "e0", some "v", some "v"⟩,
           ⟨[⟨"s", ArrowType.int64⟩, ⟨"d", ArrowType.int64⟩],
            [[⟨ArrowType.int64, [CellValue.vInt 1]⟩], [⟨ArrowType.int64, [CellValue.vInt 2]⟩]]⟩,
           [some [⟨"s", ArrowType.int64⟩, ⟨"d", ArrowType.int64⟩]]⟩],
         [⟨⟨some "e0", some "v", some "v"⟩,
           ⟨[⟨"s", ArrowType.int64⟩, ⟨"d", ArrowType.int64⟩],
            [[⟨ArrowType.int64, [CellValue.vInt 1]⟩], [⟨ArrowType.int64, [CellValue.vInt 2]⟩]]⟩,
           [some [⟨"s", ArrowType.int64⟩, ⟨"d", ArrowType.int64⟩]]⟩]] =
        (Except.error e, tr) ∧
      e.code = ErrorCode.kInvalidValueError) ∧
    (∃ r tr, loadEdgeTables [("v", 0)]
        [[⟨⟨some "e0", some "v", some "v"⟩,
           ⟨[⟨"s", ArrowType.int64⟩, ⟨"d", ArrowType.int64⟩],
            [[⟨ArrowType.int64, [CellValue.vInt 1]⟩], [⟨ArrowType.int64, [CellValue.vInt 2]⟩]]⟩,
           [some [⟨"s", ArrowType.int64⟩, ⟨"d", ArrowType.int64⟩]]⟩]] =
        (Except.ok r, tr)) := by
  constructor
  · refine edge_label_consistency.1 _ (by decide)
      (by
        intro ss hss
        simp only [List.flatten, List.append_nil, List.mem_append, List.mem_cons,
          List.not_mem_nil, or_false, List.mem_singleton] at hss
        rcases hss with h | h <;> (subst h; exact ⟨"e0", rfl⟩))
      (by decide) (by decide)
      ⟨0, 1, by decide, by decide, by decide, "e0",
        ⟨⟨⟨some "e0", some "v", some "v"⟩,
           ⟨[⟨"s", ArrowType.int64⟩, ⟨"d", ArrowType.int64⟩],
            [[⟨ArrowType.int64, [CellValue.vInt 1]⟩], [⟨ArrowType.int64, [CellValue.vInt 2]⟩]]⟩,
           [some [⟨"s", ArrowType.int64⟩, ⟨"d", ArrowType.int64⟩]]⟩,
         List.mem_cons_self _ _, rfl⟩,
        ⟨⟨⟨some "e0", some "v", some "v"⟩,
           ⟨[⟨"s", ArrowType.int64⟩, ⟨"d", ArrowType.int64⟩],
            [[⟨ArrowType.int64, [CellValue.vInt 1]⟩], [⟨ArrowType.int64, [CellValue.vInt 2]⟩]]⟩,
           [some [⟨"s", ArrowType.int64⟩, ⟨"d", ArrowType.int64⟩]]⟩,
         List.mem_cons_self _ _, rfl⟩⟩
  · refine edge_label_consistency.2 [("v", 0)] _ ?_
    intro subs hsubs ss hss
    simp only [List.mem_cons, List.not_mem_nil, or_false, List.mem_singleton] at hsubs
    subst hsubs
    simp only [List.mem_cons, List.not_mem_nil, or_false, List.mem_singleton] at hss
    subst hss
    exact ⟨⟨⟨[⟨"s", ArrowType.int64⟩, ⟨"d", ArrowType.int64⟩],
      [[⟨ArrowType.int64, [CellValue.vInt 1]⟩], [⟨ArrowType.int64, [CellValue.vInt 2]⟩]]⟩,
      by decide⟩, ⟨"e0", rfl⟩, ⟨"v", 0, rfl, by decide⟩, ⟨"v", 0, rfl, by decide⟩⟩

end Vineyard
